import Mathlib

/-!
# Staking coin selection and validator lifecycle of the wallet extension

A shallow embedding of `src/esperanza/walletextension.cpp`:

* `SelectCoinsForStaking`, the greedy selection loop over the stakeable outputs;
* `SendVote`, `VoteIfNeeded`, `BlockConnected` and `SendWithdraw`, the part of the
  validator lifecycle that reads and writes the `ValidatorState` record.

Amounts (`CAmount`, an `int64_t`) are integers. The additions of the selection loop
wrap around at 64 bits (`wrap64`), as the compiled code does; statements that need exact
sums say so by a bound on the operands. The remaining amount arithmetic (withdraw
amounts, stake credit) is exact and describes runs in which it does not overflow. Epochs
and dynasties (`uint32_t`) are only ever compared, never added, and are natural numbers.
-/

namespace esperanza

/-! ## Coin selection -/

/-- Amount of money, `CAmount` in the source (a signed 64 bit integer). -/
abbrev CAmount := Int

/-- The two members of `COutput` that `SelectCoinsForStaking` reads: `tx`, the address
of the wallet transaction (a `const CWalletTx *`), and `i`, the output index. -/
structure COutput where
  tx : Nat
  i : Nat
deriving DecidableEq, Repr

/-- An element of `std::set<std::pair<const CWalletTx *, unsigned int>>`. -/
abbrev CoinRef := Nat × Nat

/-- The value table of the wallet transactions: `nValue p n` stands for
`p->tx->vout[n].nValue`, the value of output `n` of the transaction at address `p`. -/
abbrev ValueTable := Nat → Nat → CAmount

/-- The `operator<` of `std::pair`: lexicographic on (pointer, index). -/
def pairLess (a b : CoinRef) : Bool :=
  decide (a.1 < b.1) || (!decide (b.1 < a.1) && decide (a.2 < b.2))

/-- Insertion into a `std::set` kept as its sorted sequence of elements:
an element equivalent to one already present (neither is less) is not inserted. -/
def setInsert (c : CoinRef) : List CoinRef → List CoinRef
  | [] => [c]
  | d :: ds =>
    if pairLess c d then c :: d :: ds
    else if pairLess d c then d :: setInsert c ds
    else d :: ds

/-- The pair the loop body builds with `std::make_pair(pcoin, index)`. -/
def COutput.coin (output : COutput) : CoinRef := (output.tx, output.i)

/-- What `SelectCoinsForStaking` hands back: its return value and the two
reference parameters `setCoinsRet` and `nValueRet`. -/
structure Selection where
  ok : Bool
  setCoinsRet : List CoinRef
  nValueRet : CAmount
deriving DecidableEq, Repr

/-- The value a signed 64 bit addition leaves: the exact sum reduced modulo `2 ^ 64`
into the range from `-2 ^ 63` to `2 ^ 63 - 1`. -/
def wrap64 (x : Int) : Int :=
  (x + 9223372036854775808) % 18446744073709551616 - 9223372036854775808

/-- The integer is a value of `int64_t`: between `-2 ^ 63` and `2 ^ 63 - 1`. -/
def fits64 (x : Int) : Prop := -9223372036854775808 ≤ x ∧ x ≤ 9223372036854775807

instance (x : Int) : Decidable (fits64 x) := by unfold fits64; infer_instance

/-- The `for` loop of `SelectCoinsForStaking` over the remaining outputs, from the
current `setCoinsRet` and `nValueRet`. `EEES` is the amount constant of that name; it is
declared in another file of the repository and is taken as a parameter here. The two
additions `nValueRet += amount` and `nTargetValue + EEES` are 64 bit additions. -/
def selectLoop (nValue : ValueTable) (EEES nTargetValue : CAmount) :
    List COutput → List CoinRef → CAmount → List CoinRef × CAmount
  | [], setCoinsRet, nValueRet => (setCoinsRet, nValueRet)
  | output :: rest, setCoinsRet, nValueRet =>
    -- Stop if we've chosen enough inputs
    if nValueRet ≥ nTargetValue then (setCoinsRet, nValueRet)
    else
      let amount := nValue output.tx output.i
      if amount ≥ nTargetValue then
        -- insert it into the current subset and exit
        (setInsert output.coin setCoinsRet, wrap64 (nValueRet + amount))
      else if amount < wrap64 (nTargetValue + EEES) then
        selectLoop nValue EEES nTargetValue rest (setInsert output.coin setCoinsRet)
          (wrap64 (nValueRet + amount))
      else
        selectLoop nValue EEES nTargetValue rest setCoinsRet nValueRet

/-- The function `SelectCoinsForStaking`: clear the set, zero the value, run the loop,
and report whether the target was reached. -/
def SelectCoinsForStaking (nValue : ValueTable) (EEES nTargetValue : CAmount)
    (availableCoinsForStaking : List COutput) : Selection :=
  let r := selectLoop nValue EEES nTargetValue availableCoinsForStaking [] 0
  { ok := decide (r.2 ≥ nTargetValue), setCoinsRet := r.1, nValueRet := r.2 }

/-- Sum of the amounts of the coins of a set. -/
def setValue (nValue : ValueTable) (s : List CoinRef) : CAmount :=
  (s.map (fun c => nValue c.1 c.2)).sum

/-- Value table used in the examples: transaction 1 pays -10, transaction 2 pays 5,
every other transaction pays 7. -/
def tableNegative : ValueTable := fun p _ => if p = 1 then -10 else if p = 2 then 5 else 7

/-- Value table used in the examples: transaction 1 pays `2 ^ 62 - 1`, transaction 2
pays `2 ^ 63 - 1`, every other transaction pays 7. -/
def tableLarge : ValueTable :=
  fun p _ => if p = 1 then 4611686018427387903 else if p = 2 then 9223372036854775807 else 7

/-- Value table used in the examples: every output is worth `2 ^ 62`. -/
def tableHuge : ValueTable := fun _ _ => 4611686018427387904

/-- Value table used in the examples: every output is worth 10. -/
def tableTen : ValueTable := fun _ _ => 10

/-- Value table of the scenario with coin A (transaction 1, value 50) and coin B
(transaction 2, value 80). -/
def tableAB : ValueTable := fun p _ => if p = 1 then 50 else 80

/-! ## Validator lifecycle: data -/

/-- The phases of `ValidatorState::Phase`. -/
inductive Phase where
  | NOT_VALIDATING
  | WAITING_DEPOSIT_CONFIRMATION
  | WAITING_DEPOSIT_FINALIZATION
  | IS_VALIDATING
deriving DecidableEq, Repr

/-- The transaction types of `primitives/txtype.h`. -/
inductive TxType where
  | REGULAR
  | COINBASE
  | DEPOSIT
  | VOTE
  | LOGOUT
  | SLASH
  | WITHDRAW
  | ADMIN
deriving DecidableEq, Repr

/-- A vote: validator address, target hash, source epoch and target epoch. -/
structure Vote where
  m_validatorAddress : Nat
  m_targetHash : Nat
  m_sourceEpoch : Nat
  m_targetEpoch : Nat
deriving DecidableEq, Repr

/-- The scripts the lifecycle transactions carry, kept symbolic: the empty script,
`CScript::EncodeVote`, `CScript::CreateP2PKHScript` (of the id of a public key),
`CScript::CreateUnspendableScript`, `CScript::CreatePayVoteSlashScript`, and any other
script by a number. -/
inductive CScript where
  | empty
  | EncodeVote (vote : Vote) (voteSig : Nat)
  | CreateP2PKHScript (pubKey : Nat)
  | CreateUnspendableScript
  | CreatePayVoteSlashScript (pubKey : Nat)
  | other (code : Nat)
deriving DecidableEq, Repr

/-- A transaction output: value and locking script. -/
structure CTxOut where
  nValue : CAmount
  scriptPubKey : CScript
deriving DecidableEq, Repr

/-- A transaction input: hash and index of the spent output, and the script. -/
structure CTxIn where
  hash : Nat
  n : Nat
  scriptSig : CScript
deriving DecidableEq, Repr

/-- A transaction under construction: type, inputs, outputs. -/
structure CMutableTransaction where
  type : TxType
  vin : List CTxIn
  vout : List CTxOut
deriving DecidableEq, Repr

/-- What the lifecycle code reads of the transaction `m_lastEsperanzaTx` points to: its
hash and its output 0. -/
structure CTransaction where
  GetHash : Nat
  vout0 : CTxOut
deriving DecidableEq, Repr

/-- A `CTransactionRef`, the shared pointer to a transaction: none is the null pointer,
which is what a freshly constructed `ValidatorState` holds in `m_lastEsperanzaTx`. -/
abbrev CTransactionRef := Option CTransaction

/-- Modelled from the spec: the `ValidatorState` record, which `walletextension.cpp` uses
but does not declare. The fields are those the code reads and writes, under the names
the code uses; `m_voteMap` is the `std::map` from epoch to the vote cast in it. -/
structure ValidatorState where
  m_phase : Phase
  m_validatorAddress : Nat
  m_lastEsperanzaTx : CTransactionRef
  m_voteMap : Nat → Option Vote
  m_lastSourceEpoch : Nat
  m_lastTargetEpoch : Nat
  m_depositEpoch : Nat
  m_startDynasty : Nat
  m_endDynasty : Nat

/-- The entry of the validator registry that `GetValidator` points to; the code reads
its start dynasty. -/
structure Validator where
  m_startDynasty : Nat
deriving DecidableEq, Repr

/-- The answers of the finalization state for one block index. `CalculateWithdrawAmount`
gives the current deposit when its result is `SUCCESS` and nothing otherwise. -/
structure FinalizationState where
  GetCurrentDynasty : Nat
  GetLastFinalizedEpoch : Nat
  GetRecommendedVote : Nat → Vote
  GetValidator : Nat → Validator
  CalculateWithdrawAmount : Nat → Option CAmount

/-- A block index as the lifecycle code uses it: `FinalizationState::GetEpoch` and
`FinalizationState::GetState` of it. -/
structure CBlockIndex where
  GetEpoch : Nat
  GetState : FinalizationState

/-- A recipient handed to `CreateTransaction`: script, amount, and whether the fee is
taken from the amount. -/
structure CRecipient where
  scriptPubKey : CScript
  nAmount : CAmount
  fSubtractFeeFromAmount : Bool
deriving DecidableEq, Repr

/-- The answers of the enclosing wallet during one call: the vote signature of
`Vote::CreateSignature` (none when signing fails), the result of `ProduceSignature`,
`IsInvalid` of the validation state after `CommitTransaction`, the public key of
`GetPubKey`, the fee of `GetMinimumFee`, the transaction `CreateTransaction` builds for
the given recipients and type (none when it returns false), and the boolean
`CommitTransaction` returns. These collaborators do not touch the `ValidatorState`. -/
structure WalletAnswers where
  CreateSignature : Option Nat
  ProduceSignature : Bool
  IsInvalid : Bool
  GetPubKey : Nat → Nat
  GetMinimumFee : CAmount
  CreateTransaction : List CRecipient → TxType → Option CMutableTransaction
  CommitTransaction : Bool

/-- Result of a transaction sender (`SendVote`, `SendWithdraw`, `SendDeposit`): the boolean it
returns, the transaction it set on its output parameter and passed to
`CommitTransaction` (none when that call was not reached), and the `ValidatorState`
it leaves. `fault` is true when the call dereferenced a null `m_lastEsperanzaTx`: the
program stops there with a memory fault instead of returning, `ok` is then false and
`state` is the state at that moment. Where it is not written, `fault` is false. -/
structure SendResult where
  ok : Bool
  tx : Option CMutableTransaction
  state : ValidatorState
  fault : Bool := false

/-- The return points of `VoteIfNeeded`, and `nullDereference` for a call that does not
return because `SendVote` dereferenced a null `m_lastEsperanzaTx`. -/
inductive VotePath where
  | dynastyEnded
  | dynastyNotStarted
  | doubleVote
  | surroundVote
  | sendFailed
  | voted
  | nullDereference
deriving DecidableEq, Repr

/-- Result of `VoteIfNeeded`: the state it leaves, the return point taken, and the
vote transaction passed to `CommitTransaction`, if any. -/
structure VoteStep where
  state : ValidatorState
  path : VotePath
  tx : Option CMutableTransaction

/-- Result of `BlockConnected`: the state it leaves and, when `VoteIfNeeded` was
called, what that call did. -/
structure BlockStep where
  state : ValidatorState
  vote : Option VoteStep

/-! ## Validator lifecycle: operations -/

/-- The function `WalletExtension::SendVote`. The result of `CommitTransaction` is not
looked at; only the validation state is. -/
def SendVote (w : WalletAnswers) (s : ValidatorState) (prevTxRef : CTransactionRef)
    (vote : Vote) : SendResult :=
  if s.m_phase ≠ Phase.IS_VALIDATING then
    -- Cannot create votes for non-validators.
    { ok := false, tx := none, state := s }
  else
    match prevTxRef with
    | none =>
      -- prevTxRef->vout[0] through a null pointer
      { ok := false, tx := none, state := s, fault := true }
    | some prevTx =>
      let scriptPubKey := prevTx.vout0.scriptPubKey
      let amount := prevTx.vout0.nValue
      match w.CreateSignature with
      | none => { ok := false, tx := none, state := s }
      | some voteSig =>
        let scriptSig := CScript.EncodeVote vote voteSig
        let txNew : CMutableTransaction :=
          { type := TxType.VOTE
            vin := [{ hash := prevTx.GetHash, n := 0, scriptSig := scriptSig }]
            vout := [{ nValue := amount, scriptPubKey := scriptPubKey }] }
        if !w.ProduceSignature then { ok := false, tx := none, state := s }
        else if w.IsInvalid then
          -- Cannot commit vote transaction
          { ok := false, tx := some txNew, state := s }
        else { ok := true, tx := some txNew, state := s }

/-- The function `WalletExtension::VoteIfNeeded`. -/
def VoteIfNeeded (w : WalletAnswers) (blockIndex : CBlockIndex) (s : ValidatorState) :
    VoteStep :=
  let state := blockIndex.GetState
  let dynasty := state.GetCurrentDynasty
  if dynasty ≥ s.m_endDynasty then { state := s, path := VotePath.dynastyEnded, tx := none }
  else if dynasty < s.m_startDynasty then
    { state := s, path := VotePath.dynastyNotStarted, tx := none }
  else
    let epoch := blockIndex.GetEpoch
    -- Avoid double votes
    if (s.m_voteMap epoch).isSome then { state := s, path := VotePath.doubleVote, tx := none }
    else
      let vote := state.GetRecommendedVote s.m_validatorAddress
      -- Check for surrounding votes
      if vote.m_targetEpoch < s.m_lastTargetEpoch ∨ vote.m_sourceEpoch < s.m_lastSourceEpoch then
        { state := s, path := VotePath.surroundVote, tx := none }
      else
        let sent := SendVote w s s.m_lastEsperanzaTx vote
        if sent.ok then
          { state :=
              { sent.state with
                m_voteMap := Function.update sent.state.m_voteMap epoch (some vote)
                m_lastTargetEpoch := vote.m_targetEpoch
                m_lastSourceEpoch := vote.m_sourceEpoch }
            path := VotePath.voted
            tx := sent.tx }
        else if sent.fault then
          { state := sent.state, path := VotePath.nullDereference, tx := sent.tx }
        else { state := sent.state, path := VotePath.sendFailed, tx := sent.tx }

/-- The function `WalletExtension::BlockConnected`; `nIsValidatorEnabled` is the member
of that name and `isInitialBlockDownload` the answer of `IsInitialBlockDownload()`. -/
def BlockConnected (nIsValidatorEnabled isInitialBlockDownload : Bool) (w : WalletAnswers)
    (pindex : CBlockIndex) (s : ValidatorState) : BlockStep :=
  if nIsValidatorEnabled && !isInitialBlockDownload then
    match s.m_phase with
    | Phase.IS_VALIDATING =>
      let voted := VoteIfNeeded w pindex s
      -- In case we are logged out, stop validating.
      let currentDynasty := pindex.GetState.GetCurrentDynasty
      if currentDynasty ≥ voted.state.m_endDynasty then
        { state := { voted.state with m_phase := Phase.NOT_VALIDATING }, vote := some voted }
      else { state := voted.state, vote := some voted }
    | Phase.WAITING_DEPOSIT_FINALIZATION =>
      let state := pindex.GetState
      if state.GetLastFinalizedEpoch ≥ s.m_depositEpoch then
        -- Deposit is finalized there is no possible rollback
        let validator := state.GetValidator s.m_validatorAddress
        { state :=
            { s with
              m_phase := Phase.IS_VALIDATING
              m_startDynasty := validator.m_startDynasty }
          vote := none }
      else { state := s, vote := none }
    | _ => { state := s, vote := none }
  else { state := s, vote := none }

/-- The function `WalletExtension::SendWithdraw`; `address` is the key id held by the
destination and `state` the finalization state of `FinalizationState::GetState()`. The
result of `CommitTransaction` is not looked at; only the validation state is. -/
def SendWithdraw (w : WalletAnswers) (state : FinalizationState) (address : Nat)
    (s : ValidatorState) : SendResult :=
  let pubKey := w.GetPubKey address
  if s.m_phase = Phase.IS_VALIDATING then
    -- Cannot withdraw with an active validator, logout first.
    { ok := false, tx := none, state := s }
  else
    match s.m_lastEsperanzaTx with
    | none =>
      -- prevTx->GetHash() through a null pointer
      { ok := false, tx := none, state := s, fault := true }
    | some prevTx =>
      let scriptPubKey := CScript.CreateP2PKHScript pubKey
      let vin : List CTxIn := [{ hash := prevTx.GetHash, n := 0, scriptSig := CScript.empty }]
      -- Calculate how much we have left of the initial withdraw
      let initialDeposit := prevTx.vout0.nValue
      match state.CalculateWithdrawAmount s.m_validatorAddress with
      | none => { ok := false, tx := none, state := s }
      | some currentDeposit =>
        let toWithdraw := min currentDeposit initialDeposit
        let amountToBurn := initialDeposit - toWithdraw
        let burn : List CTxOut :=
          if amountToBurn > 0 then
            [{ nValue := amountToBurn, scriptPubKey := CScript.CreateUnspendableScript }]
          else []
        let fees := w.GetMinimumFee
        let txNew : CMutableTransaction :=
          { type := TxType.WITHDRAW
            vin := vin
            vout := { nValue := toWithdraw - fees, scriptPubKey := scriptPubKey } :: burn }
        if !w.ProduceSignature then { ok := false, tx := none, state := s }
        else if w.IsInvalid then { ok := false, tx := some txNew, state := s }
        else { ok := true, tx := some txNew, state := s }

/-- The function `WalletExtension::SendDeposit`. -/
def SendDeposit (w : WalletAnswers) (keyID : Nat) (amount : CAmount) (s : ValidatorState) :
    SendResult :=
  let pubKey := w.GetPubKey keyID
  let r : CRecipient :=
    { scriptPubKey := CScript.CreatePayVoteSlashScript pubKey
      nAmount := amount
      fSubtractFeeFromAmount := true }
  match w.CreateTransaction [r] TxType.DEPOSIT with
  | none =>
    -- Cannot create deposit transaction.
    { ok := false, tx := none, state := s }
  | some wtxOut =>
    if !w.CommitTransaction then
      -- Cannot commit deposit transaction.
      { ok := false, tx := some wtxOut, state := s }
    else if w.IsInvalid then
      -- Cannot verify deposit transaction
      { ok := false, tx := some wtxOut, state := s }
    else if s.m_phase = Phase.NOT_VALIDATING then
      -- Validator waiting for deposit confirmation.
      { ok := true
        tx := some wtxOut
        state := { s with m_phase := Phase.WAITING_DEPOSIT_CONFIRMATION } }
    else
      -- ERROR: Wrong state for validator state with deposit
      { ok := true, tx := some wtxOut, state := s }

/-! ## Validator lifecycle: sequences of vote steps -/

/-- The states a validator passes through when `VoteIfNeeded` is run for each block
of a sequence in turn, the starting state first. -/
def voteTrace : ValidatorState → List (WalletAnswers × CBlockIndex) → List ValidatorState
  | s, [] => [s]
  | s, step :: rest => s :: voteTrace (VoteIfNeeded step.1 step.2 s).state rest

/-- The relation between an earlier and a later state of one validator: every entry of
the earlier vote map is still there with the same vote, and neither the last source
epoch nor the last target epoch has gone down. -/
def NoRegress (s t : ValidatorState) : Prop :=
  (∀ epoch vote, s.m_voteMap epoch = some vote → t.m_voteMap epoch = some vote) ∧
  s.m_lastSourceEpoch ≤ t.m_lastSourceEpoch ∧
  s.m_lastTargetEpoch ≤ t.m_lastTargetEpoch

/-! ## Validator lifecycle: example data -/

/-- Example vote: source epoch 2, target epoch 6. -/
def vote26 : Vote :=
  { m_validatorAddress := 1, m_targetHash := 0, m_sourceEpoch := 2, m_targetEpoch := 6 }

/-- Example vote: source epoch 6, target epoch 7. -/
def vote67 : Vote :=
  { m_validatorAddress := 1, m_targetHash := 0, m_sourceEpoch := 6, m_targetEpoch := 7 }

/-- Example deposit transaction: hash 99, output 0 worth 1000. -/
def depositTx : CTransactionRef :=
  some { GetHash := 99, vout0 := { nValue := 1000, scriptPubKey := CScript.other 5 } }

/-- Example state: validating in dynasties 0 to 99, last vote (3, 5), empty vote map. -/
def stateA : ValidatorState :=
  { m_phase := Phase.IS_VALIDATING
    m_validatorAddress := 1
    m_lastEsperanzaTx := depositTx
    m_voteMap := fun _ => none
    m_lastSourceEpoch := 3
    m_lastTargetEpoch := 5
    m_depositEpoch := 2
    m_startDynasty := 0
    m_endDynasty := 100 }

/-- Example state: validating in dynasties 0 to 99, one vote recorded at epoch 7,
last vote (6, 7). -/
def stateB : ValidatorState :=
  { m_phase := Phase.IS_VALIDATING
    m_validatorAddress := 1
    m_lastEsperanzaTx := depositTx
    m_voteMap := fun epoch => if epoch = 7 then some vote67 else none
    m_lastSourceEpoch := 6
    m_lastTargetEpoch := 7
    m_depositEpoch := 2
    m_startDynasty := 0
    m_endDynasty := 100 }

/-- Example state: waiting for the finalization of a deposit made in epoch 3. -/
def stateW : ValidatorState :=
  { m_phase := Phase.WAITING_DEPOSIT_FINALIZATION
    m_validatorAddress := 1
    m_lastEsperanzaTx := depositTx
    m_voteMap := fun _ => none
    m_lastSourceEpoch := 0
    m_lastTargetEpoch := 0
    m_depositEpoch := 3
    m_startDynasty := 0
    m_endDynasty := 100 }

/-- Example finalization state: the given dynasty and recommended vote, last finalized
epoch 5, registry entry starting at dynasty 4, current deposit 900. -/
def finState (dynasty : Nat) (vote : Vote) : FinalizationState :=
  { GetCurrentDynasty := dynasty
    GetLastFinalizedEpoch := 5
    GetRecommendedVote := fun _ => vote
    GetValidator := fun _ => { m_startDynasty := 4 }
    CalculateWithdrawAmount := fun _ => some 900 }

/-- Example of what `CreateTransaction` builds: one input from the wallet (output 0 of
transaction 500), the recipients as outputs in order. -/
def exampleCreate (vecSend : List CRecipient) (type : TxType) : Option CMutableTransaction :=
  some
    { type := type
      vin := [{ hash := 500, n := 0, scriptSig := CScript.empty }]
      vout := vecSend.map (fun r => { nValue := r.nAmount, scriptPubKey := r.scriptPubKey }) }

/-- Example wallet: every signature is produced and every commit is accepted. -/
def walletOk : WalletAnswers :=
  { CreateSignature := some 77
    ProduceSignature := true
    IsInvalid := false
    GetPubKey := fun k => k
    GetMinimumFee := 1
    CreateTransaction := exampleCreate
    CommitTransaction := true }

/-- Example wallet: the committer rejects the transaction. -/
def walletReject : WalletAnswers :=
  { CreateSignature := some 77
    ProduceSignature := true
    IsInvalid := true
    GetPubKey := fun k => k
    GetMinimumFee := 1
    CreateTransaction := exampleCreate
    CommitTransaction := true }

/-- Example wallet: every signature is produced and the validation state stays valid,
but `CommitTransaction` returns false. -/
def walletRefused : WalletAnswers :=
  { CreateSignature := some 77
    ProduceSignature := true
    IsInvalid := false
    GetPubKey := fun k => k
    GetMinimumFee := 1
    CreateTransaction := exampleCreate
    CommitTransaction := false }

/-- The state a freshly constructed `ValidatorState` holds: not validating, no last
lifecycle transaction, nothing voted. -/
def stateFresh : ValidatorState :=
  { m_phase := Phase.NOT_VALIDATING
    m_validatorAddress := 0
    m_lastEsperanzaTx := none
    m_voteMap := fun _ => none
    m_lastSourceEpoch := 0
    m_lastTargetEpoch := 0
    m_depositEpoch := 0
    m_startDynasty := 0
    m_endDynasty := 0 }

/-- Example state: not validating, the last lifecycle transaction being the example
deposit. -/
def stateN : ValidatorState :=
  { m_phase := Phase.NOT_VALIDATING
    m_validatorAddress := 1
    m_lastEsperanzaTx := depositTx
    m_voteMap := fun _ => none
    m_lastSourceEpoch := 0
    m_lastTargetEpoch := 0
    m_depositEpoch := 0
    m_startDynasty := 0
    m_endDynasty := 100 }

/-! ## Coinstake: data -/

/-- The script classes `Solver` reports (`txnouttype`). -/
inductive txnouttype where
  | TX_NONSTANDARD
  | TX_PUBKEY
  | TX_PUBKEYHASH
  | TX_SCRIPTHASH
  | TX_MULTISIG
  | TX_NULL_DATA
deriving DecidableEq, Repr

/-- What `GetStakeableBalance` reads of a wallet transaction. -/
structure CWalletTx where
  IsTrusted : Bool
  GetAvailableCredit : CAmount
  GetAvailableWatchOnlyCredit : CAmount
deriving DecidableEq, Repr

/-- The three proposer settings `CreateCoinStake` reads. -/
structure ProposerSettings where
  m_maxStakeCombine : Nat
  m_stakeCombineThreshold : CAmount
  m_stakeSplitThreshold : CAmount
deriving DecidableEq, Repr

/-- Everything `CreateCoinStake` reads from the wallet, the chain and the parameters
during one call. `mapWallet` lists the wallet transactions; `AvailableCoinsForStaking`
is the (shuffled) vector that function fills; `GetHash p` and `vout p n` are the hash
and output `n` of the wallet transaction at address `p`; `CheckKernel` answers
`staking::CheckKernel` for the outpoint (hash, index) at the given target and time;
`Solver` gives the script class and first solution, none when the script cannot be
parsed; `GetKey` gives the key for a key id, none when the wallet lacks it;
`ProduceSignature n` tells whether input `n` can be signed; `COINSTAKE` stands for
the tag `TxType::COINSTAKE`, which the enumeration of `txtype.h` does not list;
`EEES` is the amount constant. -/
structure StakeView where
  mapWallet : List CWalletTx
  m_reserveBalance : CAmount
  EEES : CAmount
  AvailableCoinsForStaking : List COutput
  GetHash : Nat → Nat
  vout : Nat → Nat → CTxOut
  CheckKernel : Nat → Nat → Bool
  HasIsCoinstakeOp : CScript → Bool
  GetCoinstakeScriptPath : CScript → Option CScript
  Solver : CScript → Option (txnouttype × Nat)
  GetKey : Nat → Option Nat
  m_proposerSettings : ProposerSettings
  GetProofOfStakeReward : CAmount
  ProduceSignature : Nat → Bool
  GetSerializeSize : CMutableTransaction → Nat
  COINSTAKE : TxType

/-- The kernel the scan of `CreateCoinStake` settles on: the coin, the script the
outputs will pay (`scriptPubKeyKernel`) and the key (`keyOut`). -/
structure KernelFound where
  coin : CoinRef
  scriptPubKeyKernel : CScript
  keyOut : Nat
deriving DecidableEq, Repr

/-- The variables the combine loop of `CreateCoinStake` updates. -/
structure CombineState where
  vin : List CTxIn
  nCredit : CAmount
  nStakesCombined : Nat
  vwtxPrev : List Nat
deriving DecidableEq, Repr

/-- What a successful `CreateCoinStake` hands back: the transaction and the key. -/
structure CoinStake where
  txNew : CMutableTransaction
  keyOut : Nat
deriving DecidableEq, Repr

/-! ## Coinstake: operations -/

/-- The constant `DEFAULT_BLOCK_MAX_SIZE`. -/
def DEFAULT_BLOCK_MAX_SIZE : Nat := 1000000

/-- The function `WalletExtension::GetStakeableBalance`. -/
def GetStakeableBalance (mapWallet : List CWalletTx) : CAmount :=
  mapWallet.foldl
    (fun balance coin =>
      if coin.IsTrusted then
        balance + coin.GetAvailableCredit + coin.GetAvailableWatchOnlyCredit
      else balance)
    0

/-- The part of the kernel loop of `CreateCoinStake` after a kernel hit on `pcoin` with
the script `pscriptPubKey` to solve: a break without kernel when the script cannot be
parsed, is not pay-to-pubkey-hash, or its key is not in the wallet. -/
def resolveKernel (env : StakeView) (pcoin : CoinRef) (pscriptPubKey : CScript)
    (fConditionalStake : Bool) : Option KernelFound :=
  match env.Solver pscriptPubKey with
  | none => none
  | some (whichType, solution) =>
    if whichType = txnouttype.TX_PUBKEYHASH then
      match env.GetKey solution with
      | none => none
      | some key =>
        some
          { coin := pcoin
            scriptPubKeyKernel :=
              if fConditionalStake then (env.vout pcoin.1 pcoin.2).scriptPubKey
              else CScript.CreateP2PKHScript solution
            keyOut := key }
    else none

/-- The kernel loop of `CreateCoinStake` over the elements of `setCoins` in the order
of the set: none when the loop ends or breaks without a kernel. -/
def kernelScan (env : StakeView) : List CoinRef → Option KernelFound
  | [] => none
  | pcoin :: rest =>
    if env.CheckKernel (env.GetHash pcoin.1) pcoin.2 then
      -- Found a kernel
      let pscriptPubKey := (env.vout pcoin.1 pcoin.2).scriptPubKey
      if env.HasIsCoinstakeOp pscriptPubKey then
        match env.GetCoinstakeScriptPath pscriptPubKey with
        | none => kernelScan env rest
        | some coinstakePath => resolveKernel env pcoin coinstakePath true
      else resolveKernel env pcoin pscriptPubKey false
    else kernelScan env rest

/-- The combine loop of `CreateCoinStake` over the remaining elements of `setCoins`;
`limit` is `nBalance - m_reserveBalance`. -/
def combineLoop (env : StakeView) (limit : CAmount) (scriptPubKeyKernel : CScript) :
    List CoinRef → CombineState → CombineState
  | [], st => st
  | pcoin :: rest, st =>
    if st.nStakesCombined ≥ env.m_proposerSettings.m_maxStakeCombine then st
    -- Stop adding more inputs if already too many inputs
    else if st.vin.length ≥ 100 then st
    -- Stop adding more inputs if value is already pretty significant
    else if st.nCredit ≥ env.m_proposerSettings.m_stakeCombineThreshold then st
    else
      let prevOut := env.vout pcoin.1 pcoin.2
      -- Only add coins of the same key/address as kernel
      if prevOut.scriptPubKey ≠ scriptPubKeyKernel then
        combineLoop env limit scriptPubKeyKernel rest st
      -- Stop adding inputs if reached reserve limit
      else if st.nCredit + prevOut.nValue > limit then st
      -- Do not add additional significant input
      else if prevOut.nValue ≥ env.m_proposerSettings.m_stakeCombineThreshold then
        combineLoop env limit scriptPubKeyKernel rest st
      else
        combineLoop env limit scriptPubKeyKernel rest
          { vin := st.vin ++ [{ hash := env.GetHash pcoin.1, n := pcoin.2,
                                scriptSig := CScript.empty }]
            nCredit := st.nCredit + prevOut.nValue
            nStakesCombined := st.nStakesCombined + 1
            vwtxPrev := st.vwtxPrev ++ [pcoin.1] }

/-- The output shaping of `CreateCoinStake`: the one output created with the kernel
gets half the credit (the quotient of the C++ division, which rounds towards zero) and
a second output the rest when the credit reaches the split threshold; otherwise the
one output gets the whole credit. -/
def shapeOutputs (nCredit m_stakeSplitThreshold : CAmount) (scriptPubKeyKernel : CScript) :
    List CTxOut :=
  if nCredit ≥ m_stakeSplitThreshold then
    [{ nValue := Int.tdiv nCredit 2, scriptPubKey := scriptPubKeyKernel },
     { nValue := nCredit - Int.tdiv nCredit 2, scriptPubKey := scriptPubKeyKernel }]
  else [{ nValue := nCredit, scriptPubKey := scriptPubKeyKernel }]

/-- The state in which the combine loop starts: the kernel is the only input and its
value the credit. -/
def kernelState (env : StakeView) (k : KernelFound) : CombineState :=
  { vin := [{ hash := env.GetHash k.coin.1, n := k.coin.2, scriptSig := CScript.empty }]
    nCredit := (env.vout k.coin.1 k.coin.2).nValue
    nStakesCombined := 0
    vwtxPrev := [k.coin.1] }

/-- The set `CreateCoinStake` selects: the result of `SelectCoinsForStaking` for the
target `nBalance - m_reserveBalance`. -/
def stakeSelection (env : StakeView) : Selection :=
  SelectCoinsForStaking (fun p n => (env.vout p n).nValue) env.EEES
    (GetStakeableBalance env.mapWallet - env.m_reserveBalance) env.AvailableCoinsForStaking

/-- The first part of `CreateCoinStake`, up to the end of the combine loop: the kernel
and the combine variables, or none when the function has returned false before. -/
def stakeInputs (env : StakeView) : Option (KernelFound × CombineState) :=
  let nBalance := GetStakeableBalance env.mapWallet
  if nBalance ≤ env.m_reserveBalance then none
  else
    -- Choose coins to use
    let sel := stakeSelection env
    if !sel.ok then none
    else
      match kernelScan env sel.setCoinsRet with
      | none => none
      | some k =>
        let nCredit := (env.vout k.coin.1 k.coin.2).nValue
        if nCredit = 0 ∨ nCredit > nBalance - env.m_reserveBalance then none
        else
          -- Attempt to add more inputs
          some (k, combineLoop env (nBalance - env.m_reserveBalance) k.scriptPubKeyKernel
            (sel.setCoinsRet.erase k.coin) (kernelState env k))

/-- The function `WalletExtension::CreateCoinStake`: none when it returns false. -/
def CreateCoinStake (env : StakeView) : Option CoinStake :=
  match stakeInputs env with
  | none => none
  | some (k, st) =>
    -- Get block reward
    let nReward := env.GetProofOfStakeReward
    if nReward < 0 then none
    else
      let nCredit := st.nCredit + nReward
      -- Set output amount, split outputs if > nStakeSplitThreshold
      let txNew : CMutableTransaction :=
        { type := env.COINSTAKE
          vin := st.vin
          vout := shapeOutputs nCredit env.m_proposerSettings.m_stakeSplitThreshold
            k.scriptPubKeyKernel }
      -- Sign
      if !(List.range st.vwtxPrev.length).all env.ProduceSignature then none
      -- Limit size
      else if env.GetSerializeSize txNew ≥ DEFAULT_BLOCK_MAX_SIZE / 5 then none
      else some { txNew := txNew, keyOut := k.keyOut }

/-- The first coin, in the order of the candidate sequence, that is in the selected set
and for which the kernel test hits: the kernel a scan in selection order would find. -/
def firstHitInSelectionOrder (env : StakeView) : Option CoinRef :=
  (env.AvailableCoinsForStaking.map COutput.coin).find?
    (fun c => decide (c ∈ (stakeSelection env).setCoinsRet) &&
      env.CheckKernel (env.GetHash c.1) c.2)

/-! ## Coinstake: example data -/

/-- Example view: a trusted balance of 100 without reserve; the candidates are
output 0 of the transaction at address 2 and then output 0 of the one at address 1,
each worth 50 and paying key 7; every kernel test hits; the key is in the wallet;
at most 10 coins are combined below a threshold of 1000, the split threshold is the
given one, and the coinstake tag is taken to be `COINBASE`. -/
def viewTwoCoins (split : CAmount) : StakeView :=
  { mapWallet := [{ IsTrusted := true, GetAvailableCredit := 100,
                    GetAvailableWatchOnlyCredit := 0 }]
    m_reserveBalance := 0
    EEES := 1000000
    AvailableCoinsForStaking := [⟨2, 0⟩, ⟨1, 0⟩]
    GetHash := fun p => 1000 + p
    vout := fun _ _ => { nValue := 50, scriptPubKey := CScript.CreateP2PKHScript 7 }
    CheckKernel := fun _ _ => true
    HasIsCoinstakeOp := fun _ => false
    GetCoinstakeScriptPath := fun _ => none
    Solver := fun _ => some (txnouttype.TX_PUBKEYHASH, 7)
    GetKey := fun _ => some 9
    m_proposerSettings :=
      { m_maxStakeCombine := 10, m_stakeCombineThreshold := 1000,
        m_stakeSplitThreshold := split }
    GetProofOfStakeReward := 5
    ProduceSignature := fun _ => true
    GetSerializeSize := fun _ => 300
    COINSTAKE := TxType.COINBASE }

/-- Example block index: epoch 8, dynasty 10, recommended vote (source 6, target 7). -/
def blockEight : CBlockIndex := { GetEpoch := 8, GetState := finState 10 vote67 }

end esperanza

namespace staking

/-! ## The coin comparator of `staking/coin.h` -/

/-- Amount of money, `CAmount` in the source. -/
abbrev CAmount := Int

/-- A `staking::Coin` through its four accessors used by the comparator: amount,
height of the containing block, transaction id and output index. Transaction ids
(`uint256`) are compared with their own `operator<`, a strict total order; they are
numbered here in that order. -/
structure Coin where
  GetAmount : CAmount
  GetHeight : Nat
  GetTransactionId : Nat
  GetOutputIndex : Nat
deriving DecidableEq, Repr

/-- The call operator of `CoinByAmountComparator`. -/
def CoinByAmountComparator (left right : Coin) : Bool :=
  if left.GetAmount > right.GetAmount then true
  else if left.GetAmount < right.GetAmount then false
  else if left.GetHeight < right.GetHeight then true
  else if left.GetHeight > right.GetHeight then false
  else if left.GetTransactionId < right.GetTransactionId then true
  else if left.GetTransactionId ≠ right.GetTransactionId then false
  else decide (left.GetOutputIndex < right.GetOutputIndex)

/-- The order the comment on the comparator describes: lexicographic on
(amount, height, transaction id, output index), the amount descending (bigger coins
first) and the other three ascending. -/
def precedes (left right : Coin) : Prop :=
  left.GetAmount > right.GetAmount ∨
  (left.GetAmount = right.GetAmount ∧
    (left.GetHeight < right.GetHeight ∨
     (left.GetHeight = right.GetHeight ∧
       (left.GetTransactionId < right.GetTransactionId ∨
        (left.GetTransactionId = right.GetTransactionId ∧
          left.GetOutputIndex < right.GetOutputIndex)))))

/-- The `operator==` of `Coin`: the outpoints (transaction id and output index) are
equal. -/
def Coin.eq (a b : Coin) : Bool :=
  decide (a.GetTransactionId = b.GetTransactionId ∧ a.GetOutputIndex = b.GetOutputIndex)

/-- Insertion into a `CoinSet`, the `std::set<Coin, CoinByAmountComparator>`, kept as
its sequence of elements in the order of the comparator: a coin equivalent to one
already present (the comparator puts neither before the other) is not inserted. -/
def CoinSet.insert (c : Coin) : List Coin → List Coin
  | [] => [c]
  | d :: ds =>
    if CoinByAmountComparator c d then c :: d :: ds
    else if CoinByAmountComparator d c then d :: CoinSet.insert c ds
    else d :: ds

/-- Example coin: 50 at height 10, output 0 of transaction 3. -/
def coinFifty : Coin :=
  { GetAmount := 50, GetHeight := 10, GetTransactionId := 3, GetOutputIndex := 0 }

/-- Example coin: the same outpoint as `coinFifty`, but worth 80 at height 5. -/
def coinEighty : Coin :=
  { GetAmount := 80, GetHeight := 5, GetTransactionId := 3, GetOutputIndex := 0 }

end staking

namespace esperanza

/-! ## Facts about the set representation -/

theorem pairLess_irrefl (c : CoinRef) : pairLess c c = false := by
  simp [pairLess]

theorem eq_of_not_pairLess (c d : CoinRef) (h1 : pairLess c d = false)
    (h2 : pairLess d c = false) : c = d := by
  obtain ⟨c1, c2⟩ := c
  obtain ⟨d1, d2⟩ := d
  simp only [pairLess, Bool.or_eq_false_iff, Bool.and_eq_false_iff, decide_eq_false_iff_not,
    Bool.not_eq_false_eq_eq_true, decide_eq_true_eq, Bool.not_eq_eq_eq_not, Bool.not_true,
    Bool.not_false] at h1 h2
  obtain ⟨a1, a2⟩ := h1
  obtain ⟨b1, b2⟩ := h2
  have e1 : c1 = d1 := by omega
  subst e1
  have e2 : c2 = d2 := by
    rcases a2 with h | h <;> rcases b2 with k | k <;> omega
  rw [e2]

theorem mem_setInsert (c x : CoinRef) (s : List CoinRef) :
    x ∈ setInsert c s ↔ x = c ∨ x ∈ s := by
  induction s with
  | nil => simp [setInsert]
  | cons d ds ih =>
    unfold setInsert
    by_cases h1 : pairLess c d = true
    · rw [if_pos h1]
      simp
    · rw [if_neg h1]
      by_cases h2 : pairLess d c = true
      · rw [if_pos h2]
        simp only [List.mem_cons, ih]
        tauto
      · rw [if_neg h2]
        have hcd : c = d :=
          eq_of_not_pairLess c d (by simpa using h1) (by simpa using h2)
        subst hcd
        simp only [List.mem_cons]
        tauto

theorem setValue_setInsert (nValue : ValueTable) (c : CoinRef) (s : List CoinRef)
    (h : c ∉ s) : setValue nValue (setInsert c s) = setValue nValue s + nValue c.1 c.2 := by
  induction s with
  | nil => simp [setInsert, setValue]
  | cons d ds ih =>
    have hd : c ≠ d := fun e => h (by simp [e])
    have hds : c ∉ ds := fun m => h (List.mem_cons_of_mem _ m)
    unfold setInsert
    by_cases h1 : pairLess c d = true
    · rw [if_pos h1]
      simp only [setValue, List.map_cons, List.sum_cons]
      ring
    · rw [if_neg h1]
      by_cases h2 : pairLess d c = true
      · rw [if_pos h2]
        have := ih hds
        simp only [setValue] at this
        simp only [setValue, List.map_cons, List.sum_cons, this]
        ring
      · exact absurd (eq_of_not_pairLess c d (by simpa using h1) (by simpa using h2)) hd

end esperanza

namespace esperanza

/-! ## Facts about 64 bit addition -/

theorem wrap64_of_bounds (x : Int) (h1 : -9223372036854775808 ≤ x)
    (h2 : x ≤ 9223372036854775807) : wrap64 x = x := by
  unfold wrap64
  omega

theorem wrap64_of_fits (x : Int) (h : fits64 x) : wrap64 x = x :=
  wrap64_of_bounds x h.1 h.2

theorem wrap64_add_wrap64 (x y : Int) : wrap64 (wrap64 x + y) = wrap64 (x + y) := by
  unfold wrap64
  omega

theorem fits64_wrap64 (x : Int) : fits64 (wrap64 x) := by
  unfold wrap64 fits64
  omega

/-! ## Facts about the selection loop -/

theorem selectLoop_keeps (nValue : ValueTable) (EEES nTargetValue : CAmount)
    (cands : List COutput) : ∀ (s : List CoinRef) (v : CAmount) (c : CoinRef),
    c ∈ s → c ∈ (selectLoop nValue EEES nTargetValue cands s v).1 := by
  induction cands with
  | nil => intro s v c hc; simpa [selectLoop] using hc
  | cons o rest ih =>
    intro s v c hc
    unfold selectLoop
    by_cases h1 : v ≥ nTargetValue
    · rw [if_pos h1]; exact hc
    · rw [if_neg h1]
      by_cases h2 : nValue o.tx o.i ≥ nTargetValue
      · simp only [h2, if_true]
        exact (mem_setInsert _ _ _).2 (Or.inr hc)
      · by_cases h3 : nValue o.tx o.i < wrap64 (nTargetValue + EEES)
        · simp only [h2, h3, if_true, if_false]
          exact ih _ _ _ ((mem_setInsert _ _ _).2 (Or.inr hc))
        · simp only [h2, h3, if_false]
          exact ih _ _ _ hc

theorem sum_amounts_nonneg (nValue : ValueTable) (cands : List COutput)
    (hpos : ∀ o ∈ cands, 0 ≤ nValue o.tx o.i) :
    0 ≤ (cands.map (fun o => nValue o.tx o.i)).sum := by
  apply List.sum_nonneg
  intro x hx
  obtain ⟨o, ho, rfl⟩ := List.mem_map.1 hx
  exact hpos o ho

theorem selectLoop_short (nValue : ValueTable) (EEES nTargetValue : CAmount)
    (hE : 0 ≤ EEES) (hT : fits64 (nTargetValue + EEES)) (cands : List COutput) :
    ∀ (s : List CoinRef) (v : CAmount),
    0 ≤ v → (∀ o ∈ cands, 0 ≤ nValue o.tx o.i) →
    v + (cands.map (fun o => nValue o.tx o.i)).sum ≤ 9223372036854775807 →
    (selectLoop nValue EEES nTargetValue cands s v).2 < nTargetValue →
    ∀ o ∈ cands, o.coin ∈ (selectLoop nValue EEES nTargetValue cands s v).1 := by
  have hw : wrap64 (nTargetValue + EEES) = nTargetValue + EEES := wrap64_of_fits _ hT
  induction cands with
  | nil => intro s v _ _ _ _ o ho; simp at ho
  | cons o rest ih =>
    intro s v hv hpos hfit hlt
    have hov : 0 ≤ nValue o.tx o.i := hpos o (by simp)
    have hrest : ∀ x ∈ rest, 0 ≤ nValue x.tx x.i := fun x hx => hpos x (by simp [hx])
    have hsum := sum_amounts_nonneg nValue rest hrest
    simp only [List.map_cons, List.sum_cons] at hfit
    have hva : wrap64 (v + nValue o.tx o.i) = v + nValue o.tx o.i :=
      wrap64_of_bounds _ (by linarith) (by linarith)
    unfold selectLoop at hlt ⊢
    simp only [hw, hva] at hlt ⊢
    by_cases h1 : v ≥ nTargetValue
    · rw [if_pos h1] at hlt
      simp only at hlt
      linarith
    · rw [if_neg h1] at hlt ⊢
      by_cases h2 : nValue o.tx o.i ≥ nTargetValue
      · simp only [h2, if_true] at hlt
        linarith
      · have h3 : nValue o.tx o.i < nTargetValue + EEES := by linarith
        simp only [h2, h3, if_true, if_false] at hlt ⊢
        intro x hx
        rcases List.mem_cons.1 hx with e | hx
        · subst e
          exact selectLoop_keeps _ _ _ _ _ _ _ ((mem_setInsert _ _ _).2 (Or.inl rfl))
        · exact ih _ _ (by linarith) hrest (by linarith) hlt x hx

theorem selectLoop_value (nValue : ValueTable) (EEES nTargetValue : CAmount)
    (cands : List COutput) : ∀ (s : List CoinRef) (v : CAmount),
    (cands.map COutput.coin).Nodup → (∀ o ∈ cands, o.coin ∉ s) →
    v = wrap64 (setValue nValue s) →
    (selectLoop nValue EEES nTargetValue cands s v).2 =
      wrap64 (setValue nValue (selectLoop nValue EEES nTargetValue cands s v).1) := by
  induction cands with
  | nil => intro s v _ _ hv; simpa [selectLoop] using hv
  | cons o rest ih =>
    intro s v hnd hfresh hv
    rw [List.map_cons, List.nodup_cons] at hnd
    obtain ⟨hnew, hnd⟩ := hnd
    have ho : o.coin ∉ s := hfresh o (by simp)
    have hins : wrap64 (v + nValue o.tx o.i) =
        wrap64 (setValue nValue (setInsert o.coin s)) := by
      rw [setValue_setInsert nValue o.coin s ho, hv, wrap64_add_wrap64]
      rfl
    have hfresh2 : ∀ x ∈ rest, x.coin ∉ setInsert o.coin s := by
      intro x hx hmem
      rcases (mem_setInsert _ _ _).1 hmem with e | hm
      · exact hnew (e ▸ List.mem_map_of_mem COutput.coin hx)
      · exact hfresh x (by simp [hx]) hm
    unfold selectLoop
    by_cases h1 : v ≥ nTargetValue
    · rw [if_pos h1]; exact hv
    · rw [if_neg h1]
      by_cases h2 : nValue o.tx o.i ≥ nTargetValue
      · simp only [h2, if_true]
        exact hins
      · by_cases h3 : nValue o.tx o.i < wrap64 (nTargetValue + EEES)
        · simp only [h2, h3, if_true, if_false]
          exact ih _ _ hnd hfresh2 hins
        · simp only [h2, h3, if_false]
          exact ih _ _ hnd (fun x hx => hfresh x (by simp [hx])) hv

/-! ## Coin selection: the claims -/

/-- C1 (as stated, refuted), in two runs. With amounts -10, 5, 7 and target 5 the
selection fails although its third candidate was never visited: the second candidate
alone meets the target, the loop exits on it, and the accumulated value is -5. With
the non-negative amounts `2 ^ 62 - 1`, `2 ^ 63 - 1`, 7 and target `2 ^ 62` the second
candidate meets the target, the 64 bit sum wraps to a negative value, the loop exits
and the selection fails, again without a visit to the third candidate. -/
theorem C1_counterexample :
    (SelectCoinsForStaking tableNegative 1000000 5 [⟨1, 0⟩, ⟨2, 0⟩, ⟨3, 0⟩]
      = { ok := false, setCoinsRet := [(1, 0), (2, 0)], nValueRet := -5 } ∧
    (3, 0) ∉ (SelectCoinsForStaking tableNegative 1000000 5
      [⟨1, 0⟩, ⟨2, 0⟩, ⟨3, 0⟩]).setCoinsRet) ∧
    (SelectCoinsForStaking tableLarge 1000000 4611686018427387904 [⟨1, 0⟩, ⟨2, 0⟩, ⟨3, 0⟩]
      = { ok := false, setCoinsRet := [(1, 0), (2, 0)],
          nValueRet := -4611686018427387906 } ∧
    (3, 0) ∉ (SelectCoinsForStaking tableLarge 1000000 4611686018427387904
      [⟨1, 0⟩, ⟨2, 0⟩, ⟨3, 0⟩]).setCoinsRet) := by
  decide

/-- C1 (amended): when no candidate has a negative amount, the amounts of all candidates
sum to at most `2 ^ 63 - 1`, `EEES` is not negative and `nTargetValue + EEES` is a 64
bit value, `SelectCoinsForStaking` returns success exactly when the accumulated value it
reports is at least the target, and whenever it returns failure the accumulated value
is below the target and every candidate of the sequence was placed in the returned
set. -/
theorem C1_select_failure_consumes_all (nValue : ValueTable) (EEES nTargetValue : CAmount)
    (cands : List COutput) (hE : 0 ≤ EEES) (hpos : ∀ o ∈ cands, 0 ≤ nValue o.tx o.i)
    (hsum : (cands.map (fun o => nValue o.tx o.i)).sum ≤ 9223372036854775807)
    (hT : fits64 (nTargetValue + EEES)) :
    ((SelectCoinsForStaking nValue EEES nTargetValue cands).ok = true ↔
      nTargetValue ≤ (SelectCoinsForStaking nValue EEES nTargetValue cands).nValueRet) ∧
    ((SelectCoinsForStaking nValue EEES nTargetValue cands).ok = false →
      (SelectCoinsForStaking nValue EEES nTargetValue cands).nValueRet < nTargetValue ∧
      ∀ o ∈ cands, o.coin ∈ (SelectCoinsForStaking nValue EEES nTargetValue cands).setCoinsRet) := by
  refine ⟨by simp [SelectCoinsForStaking], ?_⟩
  intro hfail
  have hlt : (selectLoop nValue EEES nTargetValue cands [] 0).2 < nTargetValue := by
    simpa [SelectCoinsForStaking] using hfail
  exact ⟨hlt, selectLoop_short nValue EEES nTargetValue hE hT cands [] 0 le_rfl hpos
    (by linarith) hlt⟩

/-- C1 witness: three coins worth 10 each against a target of 100. -/
theorem C1_select_failure_consumes_all_witness :
    ((SelectCoinsForStaking tableTen 1000000 100 [⟨1, 0⟩, ⟨2, 0⟩, ⟨2, 1⟩]).ok = true ↔
      (100 : CAmount) ≤
        (SelectCoinsForStaking tableTen 1000000 100 [⟨1, 0⟩, ⟨2, 0⟩, ⟨2, 1⟩]).nValueRet) ∧
    ((SelectCoinsForStaking tableTen 1000000 100 [⟨1, 0⟩, ⟨2, 0⟩, ⟨2, 1⟩]).ok = false →
      (SelectCoinsForStaking tableTen 1000000 100 [⟨1, 0⟩, ⟨2, 0⟩, ⟨2, 1⟩]).nValueRet < 100 ∧
      ∀ o ∈ [(⟨1, 0⟩ : COutput), ⟨2, 0⟩, ⟨2, 1⟩], o.coin ∈
        (SelectCoinsForStaking tableTen 1000000 100 [⟨1, 0⟩, ⟨2, 0⟩, ⟨2, 1⟩]).setCoinsRet) :=
  C1_select_failure_consumes_all tableTen 1000000 100 [⟨1, 0⟩, ⟨2, 0⟩, ⟨2, 1⟩]
    (by decide) (by intro o _; simp [tableTen]) (by decide) (by decide)

/-- C2 (as stated, refuted), in two runs. When the same coin is listed twice its amount
is added twice but the set holds it once: the accumulated value is 20, the coins of
the returned set sum to 10. With three distinct coins worth `2 ^ 62` each and target
`2 ^ 62 + 1` all three are taken, the 64 bit sum wraps, and the accumulated value is
`-2 ^ 62` while the coins of the returned set sum to `3 * 2 ^ 62`. -/
theorem C2_counterexample :
    (SelectCoinsForStaking tableTen 1000000 100 [⟨1, 0⟩, ⟨1, 0⟩]
      = { ok := false, setCoinsRet := [(1, 0)], nValueRet := 20 } ∧
    setValue tableTen
      (SelectCoinsForStaking tableTen 1000000 100 [⟨1, 0⟩, ⟨1, 0⟩]).setCoinsRet = 10) ∧
    (SelectCoinsForStaking tableHuge 1000000 4611686018427387905 [⟨1, 0⟩, ⟨2, 0⟩, ⟨3, 0⟩]
      = { ok := false, setCoinsRet := [(1, 0), (2, 0), (3, 0)],
          nValueRet := -4611686018427387904 } ∧
    setValue tableHuge
      (SelectCoinsForStaking tableHuge 1000000 4611686018427387905
        [⟨1, 0⟩, ⟨2, 0⟩, ⟨3, 0⟩]).setCoinsRet = 13835058055282163712) := by
  decide

/-- C2 (amended): for every candidate sequence in which no (transaction, output index)
coin occurs more than once, and every target, the accumulated value returned by
`SelectCoinsForStaking` is the sum of the amounts of exactly the coins in the returned
set, reduced to 64 bits; it is that sum itself whenever the sum is a 64 bit value. -/
theorem C2_select_value_is_set_sum (nValue : ValueTable) (EEES nTargetValue : CAmount)
    (cands : List COutput) (hnd : (cands.map COutput.coin).Nodup) :
    (SelectCoinsForStaking nValue EEES nTargetValue cands).nValueRet =
      wrap64 (setValue nValue
        (SelectCoinsForStaking nValue EEES nTargetValue cands).setCoinsRet) ∧
    (fits64 (setValue nValue
        (SelectCoinsForStaking nValue EEES nTargetValue cands).setCoinsRet) →
      (SelectCoinsForStaking nValue EEES nTargetValue cands).nValueRet =
        setValue nValue (SelectCoinsForStaking nValue EEES nTargetValue cands).setCoinsRet) := by
  have h : (SelectCoinsForStaking nValue EEES nTargetValue cands).nValueRet =
      wrap64 (setValue nValue
        (SelectCoinsForStaking nValue EEES nTargetValue cands).setCoinsRet) := by
    simp only [SelectCoinsForStaking]
    exact selectLoop_value nValue EEES nTargetValue cands [] 0 hnd (by simp)
      (by simp only [setValue, List.map_nil, List.sum_nil]; decide)
  refine ⟨h, fun hfit => ?_⟩
  rw [h]
  exact wrap64_of_fits _ hfit

/-- C2 witness: three distinct coins, two of them outputs of one transaction. -/
theorem C2_select_value_is_set_sum_witness :
    (SelectCoinsForStaking tableTen 1000000 25 [⟨2, 1⟩, ⟨1, 0⟩, ⟨2, 0⟩]).nValueRet =
      setValue tableTen
        (SelectCoinsForStaking tableTen 1000000 25 [⟨2, 1⟩, ⟨1, 0⟩, ⟨2, 0⟩]).setCoinsRet :=
  (C2_select_value_is_set_sum tableTen 1000000 25 [⟨2, 1⟩, ⟨1, 0⟩, ⟨2, 0⟩] (by decide)).2
    (by decide)

/-- C3 (as stated, refuted): for the candidates A (50) then B (80) and target 60 the
selection holds both A and B and reports 130, not B alone with 80. -/
theorem C3_counterexample :
    SelectCoinsForStaking tableAB 1000000 60 [⟨1, 0⟩, ⟨2, 0⟩]
      = { ok := true, setCoinsRet := [(1, 0), (2, 0)], nValueRet := 130 } ∧
    (SelectCoinsForStaking tableAB 1000000 60 [⟨1, 0⟩, ⟨2, 0⟩]).setCoinsRet ≠ [(2, 0)] ∧
    (SelectCoinsForStaking tableAB 1000000 60 [⟨1, 0⟩, ⟨2, 0⟩]).nValueRet ≠ 80 := by
  decide

/-- C3 (amended): for the candidate sequence A (amount 50) then B (amount 80) and
target 60, `SelectCoinsForStaking` succeeds with the set holding A and B and the
accumulated value 130: B, which covers the target on its own, is inserted into the
subset that already holds A, and the loop stops there. This holds for every
non-negative `EEES` for which the 64 bit sum `60 + EEES` does not overflow. -/
theorem C3_select_scenario (EEES : CAmount) (hE : 0 ≤ EEES)
    (hfit : 60 + EEES ≤ 9223372036854775807) :
    SelectCoinsForStaking tableAB EEES 60 [⟨1, 0⟩, ⟨2, 0⟩]
      = { ok := true, setCoinsRet := [(1, 0), (2, 0)], nValueRet := 130 } := by
  have hw : wrap64 (60 + EEES) = 60 + EEES := wrap64_of_bounds _ (by linarith) hfit
  have h : (50 : Int) < 60 + EEES := by linarith
  have e1 : wrap64 (0 + 50) = 50 := by decide
  have e2 : wrap64 (50 + 80) = 130 := by decide
  have e3 : wrap64 50 = 50 := by decide
  have e4 : wrap64 130 = 130 := by decide
  simp [SelectCoinsForStaking, selectLoop, tableAB, setInsert, pairLess, COutput.coin, h, hw,
    e1, e2, e3, e4]

/-- C3 witness: the scenario with `EEES` equal to one. -/
theorem C3_select_scenario_witness :
    SelectCoinsForStaking tableAB 1 60 [⟨1, 0⟩, ⟨2, 0⟩]
      = { ok := true, setCoinsRet := [(1, 0), (2, 0)], nValueRet := 130 } :=
  C3_select_scenario 1 (by decide) (by decide)

end esperanza

namespace esperanza

/-! ## Facts about the vote step -/

theorem SendVote_state (w : WalletAnswers) (s : ValidatorState) (prevTxRef : CTransactionRef)
    (vote : Vote) : (SendVote w s prevTxRef vote).state = s := by
  unfold SendVote
  split
  · rfl
  · split
    · rfl
    · split
      · rfl
      · split
        · rfl
        · split <;> rfl

theorem SendVote_ok_iff (w : WalletAnswers) (s : ValidatorState) (prevTxRef : CTransactionRef)
    (vote : Vote) : (SendVote w s prevTxRef vote).ok = true ↔
      s.m_phase = Phase.IS_VALIDATING ∧ prevTxRef.isSome = true ∧
        w.CreateSignature.isSome = true ∧ w.ProduceSignature = true ∧
        w.IsInvalid = false := by
  unfold SendVote
  by_cases hp : s.m_phase = Phase.IS_VALIDATING
  · cases prevTxRef with
    | none => simp [hp]
    | some prevTx =>
      cases hc : w.CreateSignature with
      | none => simp [hp]
      | some sig =>
        cases hs : w.ProduceSignature <;> cases hi : w.IsInvalid <;> simp [hp]
  · simp [hp]

theorem SendVote_fault_iff (w : WalletAnswers) (s : ValidatorState)
    (prevTxRef : CTransactionRef) (vote : Vote) :
    (SendVote w s prevTxRef vote).fault = true ↔
      s.m_phase = Phase.IS_VALIDATING ∧ prevTxRef = none := by
  unfold SendVote
  by_cases hp : s.m_phase = Phase.IS_VALIDATING
  · cases prevTxRef with
    | none => simp [hp]
    | some prevTx =>
      cases hc : w.CreateSignature with
      | none => simp [hp]
      | some sig =>
        cases hs : w.ProduceSignature <;> cases hi : w.IsInvalid <;> simp [hp]
  · simp [hp]

theorem VoteIfNeeded_state_of_not_voted (w : WalletAnswers) (blockIndex : CBlockIndex)
    (s : ValidatorState) (h : (VoteIfNeeded w blockIndex s).path ≠ VotePath.voted) :
    (VoteIfNeeded w blockIndex s).state = s := by
  unfold VoteIfNeeded at h ⊢
  simp only at h ⊢
  split
  · rfl
  · split
    · rfl
    · split
      · rfl
      · split
        · rfl
        · split
          · rename_i h1 h2 h3 h4 h5
            simp [h1, h2, h3, h4, h5] at h
          · split
            · exact SendVote_state _ _ _ _
            · exact SendVote_state _ _ _ _

theorem VoteIfNeeded_noRegress (w : WalletAnswers) (blockIndex : CBlockIndex)
    (s : ValidatorState) : NoRegress s (VoteIfNeeded w blockIndex s).state := by
  by_cases hv : (VoteIfNeeded w blockIndex s).path = VotePath.voted
  · unfold VoteIfNeeded at hv ⊢
    simp only at hv ⊢
    split
    · exact ⟨fun _ _ h => h, le_rfl, le_rfl⟩
    · split
      · exact ⟨fun _ _ h => h, le_rfl, le_rfl⟩
      · split
        · exact ⟨fun _ _ h => h, le_rfl, le_rfl⟩
        · split
          · exact ⟨fun _ _ h => h, le_rfl, le_rfl⟩
          · rename_i h1 h2 h3 h4
            split
            · simp only [SendVote_state]
              refine ⟨?_, ?_, ?_⟩
              · intro epoch vote hmem
                have hne : epoch ≠ blockIndex.GetEpoch := by
                  intro e
                  rw [e] at hmem
                  simp [hmem] at h3
                simpa [Function.update_noteq hne] using hmem
              · simp only [not_or, not_lt] at h4
                exact h4.2
              · simp only [not_or, not_lt] at h4
                exact h4.1
            · split
              · simp only [SendVote_state]
                exact ⟨fun _ _ h => h, le_rfl, le_rfl⟩
              · simp only [SendVote_state]
                exact ⟨fun _ _ h => h, le_rfl, le_rfl⟩
  · rw [VoteIfNeeded_state_of_not_voted w blockIndex s hv]
    exact ⟨fun _ _ h => h, le_rfl, le_rfl⟩

theorem NoRegress_trans (s t u : ValidatorState) (h1 : NoRegress s t) (h2 : NoRegress t u) :
    NoRegress s u :=
  ⟨fun e v h => h2.1 e v (h1.1 e v h), le_trans h1.2.1 h2.2.1, le_trans h1.2.2 h2.2.2⟩

theorem voteTrace_from_start (steps : List (WalletAnswers × CBlockIndex)) :
    ∀ (s t : ValidatorState), t ∈ voteTrace s steps → NoRegress s t := by
  induction steps with
  | nil =>
    intro s t ht
    simp only [voteTrace, List.mem_singleton] at ht
    subst ht
    exact ⟨fun _ _ h => h, le_rfl, le_rfl⟩
  | cons step rest ih =>
    intro s t ht
    simp only [voteTrace, List.mem_cons] at ht
    rcases ht with e | ht
    · subst e
      exact ⟨fun _ _ h => h, le_rfl, le_rfl⟩
    · exact NoRegress_trans _ _ _ (VoteIfNeeded_noRegress step.1 step.2 s) (ih _ _ ht)

theorem VoteIfNeeded_voted_iff (w : WalletAnswers) (blockIndex : CBlockIndex)
    (s : ValidatorState) :
    (VoteIfNeeded w blockIndex s).path = VotePath.voted ↔
      (s.m_startDynasty ≤ blockIndex.GetState.GetCurrentDynasty ∧
       blockIndex.GetState.GetCurrentDynasty < s.m_endDynasty ∧
       s.m_voteMap blockIndex.GetEpoch = none ∧
       s.m_lastTargetEpoch ≤
         (blockIndex.GetState.GetRecommendedVote s.m_validatorAddress).m_targetEpoch ∧
       s.m_lastSourceEpoch ≤
         (blockIndex.GetState.GetRecommendedVote s.m_validatorAddress).m_sourceEpoch ∧
       s.m_phase = Phase.IS_VALIDATING ∧ s.m_lastEsperanzaTx.isSome = true ∧
       w.CreateSignature.isSome = true ∧
       w.ProduceSignature = true ∧ w.IsInvalid = false) := by
  have hsend := SendVote_ok_iff w s s.m_lastEsperanzaTx
    (blockIndex.GetState.GetRecommendedVote s.m_validatorAddress)
  unfold VoteIfNeeded
  simp only
  by_cases h1 : blockIndex.GetState.GetCurrentDynasty ≥ s.m_endDynasty
  · rw [if_pos h1]
    simp only [reduceCtorEq, false_iff, not_and]
    intro _ h2
    exact absurd h1 (not_le.2 h2)
  · rw [if_neg h1]
    by_cases h2 : blockIndex.GetState.GetCurrentDynasty < s.m_startDynasty
    · rw [if_pos h2]
      simp only [reduceCtorEq, false_iff, not_and]
      intro h3
      exact absurd h2 (not_lt.2 h3)
    · rw [if_neg h2]
      cases h3 : s.m_voteMap blockIndex.GetEpoch with
      | some v => simp
      | none =>
        simp only [Option.isSome_none, Bool.false_eq_true, if_false]
        by_cases h4 : (blockIndex.GetState.GetRecommendedVote s.m_validatorAddress).m_targetEpoch
            < s.m_lastTargetEpoch ∨
            (blockIndex.GetState.GetRecommendedVote s.m_validatorAddress).m_sourceEpoch
            < s.m_lastSourceEpoch
        · rw [if_pos h4]
          simp only [reduceCtorEq, false_iff, not_and]
          intro _ _ _ h5 h6
          rcases h4 with h4 | h4
          · exact absurd h4 (not_lt.2 h5)
          · exact absurd h4 (not_lt.2 h6)
        · rw [if_neg h4]
          simp only [not_or, not_lt] at h4
          by_cases h5 : (SendVote w s s.m_lastEsperanzaTx
              (blockIndex.GetState.GetRecommendedVote s.m_validatorAddress)).ok = true
          · rw [if_pos h5]
            simp only [true_iff]
            exact ⟨not_lt.1 h2, not_le.1 h1, trivial, h4.1, h4.2, hsend.1 h5⟩
          · rw [if_neg h5]
            have hno : ¬ (s.m_startDynasty ≤ blockIndex.GetState.GetCurrentDynasty ∧
                blockIndex.GetState.GetCurrentDynasty < s.m_endDynasty ∧
                True ∧
                s.m_lastTargetEpoch ≤
                  (blockIndex.GetState.GetRecommendedVote s.m_validatorAddress).m_targetEpoch ∧
                s.m_lastSourceEpoch ≤
                  (blockIndex.GetState.GetRecommendedVote s.m_validatorAddress).m_sourceEpoch ∧
                s.m_phase = Phase.IS_VALIDATING ∧ s.m_lastEsperanzaTx.isSome = true ∧
                w.CreateSignature.isSome = true ∧
                w.ProduceSignature = true ∧ w.IsInvalid = false) :=
              fun hall => h5 (hsend.2 hall.2.2.2.2.2)
            split <;> simp only [reduceCtorEq, false_iff] <;> exact hno

/-! ## Vote safety: the claims -/

/-- C4: in the sequence of states produced by any sequence of `VoteIfNeeded` steps
(each with its own block epoch, dynasty, recommended vote and wallet answers), every
earlier state is related to every later one by `NoRegress`: an entry of the vote
map is never overwritten, and the recorded last source and last target epochs never
decrease. -/
theorem C4_vote_history_monotone (s : ValidatorState)
    (steps : List (WalletAnswers × CBlockIndex)) :
    List.Pairwise NoRegress (voteTrace s steps) := by
  induction steps generalizing s with
  | nil => simp [voteTrace]
  | cons step rest ih =>
    simp only [voteTrace, List.pairwise_cons]
    refine ⟨fun t ht => ?_, ih _⟩
    exact NoRegress_trans _ _ _ (VoteIfNeeded_noRegress step.1 step.2 s)
      (voteTrace_from_start rest _ t ht)

end esperanza

namespace esperanza

/-- C5: when the vote map has no entry for the connected block's epoch and the current
dynasty lies in the validator's window, `VoteIfNeeded` leaves through its surround-vote
return exactly when the recommended vote has a target epoch below the last target epoch
or a source epoch below the last source epoch; on that return no transaction is
committed and the state is untouched. In particular, with last source 3 and last
target 5 the recommended vote (source 2, target 6) is rejected there. -/
theorem C5_surround_guard (w : WalletAnswers) (blockIndex : CBlockIndex) (s : ValidatorState)
    (hmap : s.m_voteMap blockIndex.GetEpoch = none)
    (hstart : s.m_startDynasty ≤ blockIndex.GetState.GetCurrentDynasty)
    (hend : blockIndex.GetState.GetCurrentDynasty < s.m_endDynasty) :
    ((VoteIfNeeded w blockIndex s).path = VotePath.surroundVote ↔
      ((blockIndex.GetState.GetRecommendedVote s.m_validatorAddress).m_targetEpoch
          < s.m_lastTargetEpoch ∨
       (blockIndex.GetState.GetRecommendedVote s.m_validatorAddress).m_sourceEpoch
          < s.m_lastSourceEpoch)) ∧
    ((VoteIfNeeded w blockIndex s).path = VotePath.surroundVote →
      (VoteIfNeeded w blockIndex s).tx = none ∧ (VoteIfNeeded w blockIndex s).state = s) ∧
    (s.m_lastSourceEpoch = 3 → s.m_lastTargetEpoch = 5 →
      (blockIndex.GetState.GetRecommendedVote s.m_validatorAddress).m_sourceEpoch = 2 →
      (blockIndex.GetState.GetRecommendedVote s.m_validatorAddress).m_targetEpoch = 6 →
      (VoteIfNeeded w blockIndex s).path = VotePath.surroundVote ∧
      (VoteIfNeeded w blockIndex s).tx = none) := by
  have h1 : ¬ blockIndex.GetState.GetCurrentDynasty ≥ s.m_endDynasty := not_le.2 hend
  have h2 : ¬ blockIndex.GetState.GetCurrentDynasty < s.m_startDynasty := not_lt.2 hstart
  have key : (VoteIfNeeded w blockIndex s).path = VotePath.surroundVote ↔
      ((blockIndex.GetState.GetRecommendedVote s.m_validatorAddress).m_targetEpoch
          < s.m_lastTargetEpoch ∨
       (blockIndex.GetState.GetRecommendedVote s.m_validatorAddress).m_sourceEpoch
          < s.m_lastSourceEpoch) := by
    unfold VoteIfNeeded
    simp only [h1, h2, hmap, if_false, Option.isSome_none, Bool.false_eq_true]
    split
    · rename_i hc
      simp [hc]
    · rename_i hc
      split
      · simp [hc]
      · split <;> simp [hc]
  have quiet : (VoteIfNeeded w blockIndex s).path = VotePath.surroundVote →
      (VoteIfNeeded w blockIndex s).tx = none ∧ (VoteIfNeeded w blockIndex s).state = s := by
    intro hp
    refine ⟨?_, VoteIfNeeded_state_of_not_voted w blockIndex s (by rw [hp]; decide)⟩
    have hc := key.1 hp
    unfold VoteIfNeeded
    simp only [h1, h2, hmap, if_false, Option.isSome_none, Bool.false_eq_true, hc, if_true]
  refine ⟨key, quiet, ?_⟩
  intro hs _ hvs _
  have hp : (VoteIfNeeded w blockIndex s).path = VotePath.surroundVote :=
    key.2 (Or.inr (by rw [hvs, hs]; decide))
  exact ⟨hp, (quiet hp).1⟩

/-- C5 witness: the scenario state (last source 3, last target 5) receives the vote
(source 2, target 6) for a block of epoch 6 in dynasty 10. -/
theorem C5_surround_guard_witness :
    (VoteIfNeeded walletOk { GetEpoch := 6, GetState := finState 10 vote26 } stateA).path
      = VotePath.surroundVote ∧
    (VoteIfNeeded walletOk { GetEpoch := 6, GetState := finState 10 vote26 } stateA).tx
      = none :=
  (C5_surround_guard walletOk { GetEpoch := 6, GetState := finState 10 vote26 } stateA
    rfl (by decide) (by decide)).2.2 rfl rfl rfl rfl

/-- C6 (as stated, refuted): the vote map holds an entry for epoch 7, the recommended
vote targets epoch 7, and the connected block lies in epoch 8; the double-vote check
looks up epoch 8, finds nothing, and the vote is committed and recorded under 8. -/
theorem C6_counterexample :
    (stateB.m_voteMap vote67.m_targetEpoch).isSome = true ∧
    ((finState 10 vote67).GetRecommendedVote stateB.m_validatorAddress).m_targetEpoch = 7 ∧
    (VoteIfNeeded walletOk { GetEpoch := 8, GetState := finState 10 vote67 } stateB).path
      = VotePath.voted ∧
    (VoteIfNeeded walletOk { GetEpoch := 8, GetState := finState 10 vote67 } stateB).tx.isSome
      = true ∧
    (VoteIfNeeded walletOk { GetEpoch := 8, GetState := finState 10 vote67 }
      stateB).state.m_voteMap 8 = some vote67 := by
  decide

/-- C6 (amended): if the vote map already contains an entry for the epoch of the
connected block (the key `VoteIfNeeded` looks up and records under), then, the dynasty
checks passed, `VoteIfNeeded` leaves through its double-vote return for every
recommended vote, whatever its source and target epochs; the surround-vote check is
not reached, no transaction is committed and the state is untouched. -/
theorem C6_double_vote_guard (w : WalletAnswers) (blockIndex : CBlockIndex)
    (s : ValidatorState)
    (hmap : (s.m_voteMap blockIndex.GetEpoch).isSome = true)
    (hstart : s.m_startDynasty ≤ blockIndex.GetState.GetCurrentDynasty)
    (hend : blockIndex.GetState.GetCurrentDynasty < s.m_endDynasty) :
    (VoteIfNeeded w blockIndex s).path = VotePath.doubleVote ∧
    (VoteIfNeeded w blockIndex s).tx = none ∧
    (VoteIfNeeded w blockIndex s).state = s := by
  have h1 : ¬ blockIndex.GetState.GetCurrentDynasty ≥ s.m_endDynasty := not_le.2 hend
  have h2 : ¬ blockIndex.GetState.GetCurrentDynasty < s.m_startDynasty := not_lt.2 hstart
  unfold VoteIfNeeded
  simp only [h1, h2, hmap, if_false, if_true, and_self]

/-- C6 witness: epoch 7 is already voted; the recommended vote (source 2, target 6)
would also fail the surround check, yet the return taken is the double-vote one. -/
theorem C6_double_vote_guard_witness :
    (VoteIfNeeded walletOk { GetEpoch := 7, GetState := finState 10 vote26 } stateB).path
      = VotePath.doubleVote ∧
    (VoteIfNeeded walletOk { GetEpoch := 7, GetState := finState 10 vote26 } stateB).tx
      = none ∧
    (VoteIfNeeded walletOk { GetEpoch := 7, GetState := finState 10 vote26 } stateB).state
      = stateB :=
  C6_double_vote_guard walletOk { GetEpoch := 7, GetState := finState 10 vote26 } stateB
    (by decide) (by decide) (by decide)

/-- A `VoteIfNeeded` step leaves the `ValidatorState` as it was in each of these cases:
the return taken is not the one after a successful `SendVote`, the dynasty is outside
the window, the double-vote or the surround-vote check rejects, the phase is not
`IS_VALIDATING`, the last lifecycle transaction is missing, the vote or the
transaction cannot be signed, or the validation state is invalid after the commit.
The boolean `CommitTransaction` returns is not among them. -/
theorem VoteIfNeeded_failure_keeps_state (w : WalletAnswers) (blockIndex : CBlockIndex)
    (s : ValidatorState)
    (h : (VoteIfNeeded w blockIndex s).path ≠ VotePath.voted ∨
      blockIndex.GetState.GetCurrentDynasty ≥ s.m_endDynasty ∨
      blockIndex.GetState.GetCurrentDynasty < s.m_startDynasty ∨
      (s.m_voteMap blockIndex.GetEpoch).isSome = true ∨
      (blockIndex.GetState.GetRecommendedVote s.m_validatorAddress).m_targetEpoch
        < s.m_lastTargetEpoch ∨
      (blockIndex.GetState.GetRecommendedVote s.m_validatorAddress).m_sourceEpoch
        < s.m_lastSourceEpoch ∨
      s.m_phase ≠ Phase.IS_VALIDATING ∨
      s.m_lastEsperanzaTx = none ∨
      w.CreateSignature = none ∨
      w.ProduceSignature = false ∨
      w.IsInvalid = true) :
    (VoteIfNeeded w blockIndex s).state = s ∧
    (VoteIfNeeded w blockIndex s).path ≠ VotePath.voted := by
  have hnv : (VoteIfNeeded w blockIndex s).path ≠ VotePath.voted := by
    intro hp
    obtain ⟨h1, h2, h3, h4, h5, h6, h7, h8, h9, h10⟩ :=
      (VoteIfNeeded_voted_iff w blockIndex s).1 hp
    rcases h with h | h | h | h | h | h | h | h | h | h | h
    · exact h hp
    · exact absurd h (not_le.2 h2)
    · exact absurd h (not_lt.2 h1)
    · rw [h3] at h; simp at h
    · exact absurd h (not_lt.2 h4)
    · exact absurd h (not_lt.2 h5)
    · exact h h6
    · rw [h] at h7; simp at h7
    · rw [h] at h8; simp at h8
    · rw [h] at h9; simp at h9
    · rw [h] at h10; simp at h10
  exact ⟨VoteIfNeeded_state_of_not_voted w blockIndex s hnv, hnv⟩

/-- C7 (the code at the failing input): the validating example state, with a vote
recorded for epoch 7 only, receives a block of epoch 8 for which the vote (6, 7) is
admissible; the wallet signs, `CommitTransaction` returns false and the validation
state stays valid. `SendVote` does not look at what `CommitTransaction` returned and
returns true, so the step ends at the return after a successful send with the vote
recorded under epoch 8 and the last source and target epochs written, although the
vote transaction was not committed. -/
theorem C7_commit_result_discarded :
    walletRefused.CommitTransaction = false ∧
    walletRefused.IsInvalid = false ∧
    stateB.m_voteMap 8 = none ∧
    (SendVote walletRefused stateB stateB.m_lastEsperanzaTx vote67).ok = true ∧
    (VoteIfNeeded walletRefused blockEight stateB).path = VotePath.voted ∧
    (VoteIfNeeded walletRefused blockEight stateB).state.m_voteMap 8 = some vote67 ∧
    (VoteIfNeeded walletRefused blockEight stateB).state.m_lastSourceEpoch = 6 ∧
    (VoteIfNeeded walletRefused blockEight stateB).state.m_lastTargetEpoch = 7 := by
  decide

end esperanza

namespace esperanza

/-! ## Lifecycle transitions: the claims -/

/-- C8: for a validator in phase `IS_VALIDATING`, a `BlockConnected` event (validator
enabled, not in initial block download) whose finalization state reports a current
dynasty at or past `m_endDynasty` ends in phase `NOT_VALIDATING` and casts no vote:
`VoteIfNeeded` returns at its first check without committing a transaction, and the
state after the event is the state before with only the phase changed. -/
theorem C8_logged_out_stops_validating (w : WalletAnswers) (pindex : CBlockIndex)
    (s : ValidatorState) (hphase : s.m_phase = Phase.IS_VALIDATING)
    (hdyn : pindex.GetState.GetCurrentDynasty ≥ s.m_endDynasty) :
    (BlockConnected true false w pindex s).state = { s with m_phase := Phase.NOT_VALIDATING } ∧
    (BlockConnected true false w pindex s).state.m_phase = Phase.NOT_VALIDATING ∧
    (BlockConnected true false w pindex s).state.m_voteMap = s.m_voteMap ∧
    (BlockConnected true false w pindex s).state.m_lastSourceEpoch = s.m_lastSourceEpoch ∧
    (BlockConnected true false w pindex s).state.m_lastTargetEpoch = s.m_lastTargetEpoch ∧
    (BlockConnected true false w pindex s).vote =
      some { state := s, path := VotePath.dynastyEnded, tx := none } := by
  have hv : VoteIfNeeded w pindex s = { state := s, path := VotePath.dynastyEnded, tx := none } := by
    unfold VoteIfNeeded
    simp only [hdyn, if_true]
  have hb : BlockConnected true false w pindex s =
      { state := { s with m_phase := Phase.NOT_VALIDATING },
        vote := some { state := s, path := VotePath.dynastyEnded, tx := none } } := by
    unfold BlockConnected
    simp only [Bool.not_false, Bool.and_self, if_true, hphase, hv, hdyn]
  rw [hb]
  exact ⟨rfl, rfl, rfl, rfl, rfl, rfl⟩

/-- C8 witness: the validating example state, whose window ends at dynasty 100,
receives a block of dynasty 100. -/
theorem C8_logged_out_stops_validating_witness :
    (BlockConnected true false walletOk { GetEpoch := 8, GetState := finState 100 vote67 }
      stateB).state = { stateB with m_phase := Phase.NOT_VALIDATING } ∧
    (BlockConnected true false walletOk { GetEpoch := 8, GetState := finState 100 vote67 }
      stateB).state.m_phase = Phase.NOT_VALIDATING ∧
    (BlockConnected true false walletOk { GetEpoch := 8, GetState := finState 100 vote67 }
      stateB).state.m_voteMap = stateB.m_voteMap ∧
    (BlockConnected true false walletOk { GetEpoch := 8, GetState := finState 100 vote67 }
      stateB).state.m_lastSourceEpoch = stateB.m_lastSourceEpoch ∧
    (BlockConnected true false walletOk { GetEpoch := 8, GetState := finState 100 vote67 }
      stateB).state.m_lastTargetEpoch = stateB.m_lastTargetEpoch ∧
    (BlockConnected true false walletOk { GetEpoch := 8, GetState := finState 100 vote67 }
      stateB).vote = some { state := stateB, path := VotePath.dynastyEnded, tx := none } :=
  C8_logged_out_stops_validating walletOk { GetEpoch := 8, GetState := finState 100 vote67 }
    stateB rfl (by decide)

/-- C9 (as stated, refuted): a validator waiting for the finalization of a deposit of
epoch 3 receives a block whose finalization state has finalized epoch 5, but the
validator is not enabled: the phase stays `WAITING_DEPOSIT_FINALIZATION`. The same
happens to an enabled validator during initial block download. -/
theorem C9_counterexample :
    stateW.m_phase = Phase.WAITING_DEPOSIT_FINALIZATION ∧
    (finState 10 vote67).GetLastFinalizedEpoch ≥ stateW.m_depositEpoch ∧
    (BlockConnected false false walletOk { GetEpoch := 8, GetState := finState 10 vote67 }
      stateW).state.m_phase = Phase.WAITING_DEPOSIT_FINALIZATION ∧
    (BlockConnected true true walletOk { GetEpoch := 8, GetState := finState 10 vote67 }
      stateW).state.m_phase = Phase.WAITING_DEPOSIT_FINALIZATION := by
  decide

/-- C9 (amended): for a validator in phase `WAITING_DEPOSIT_FINALIZATION`, a
`BlockConnected` event with the validator enabled and the node not in initial block
download moves the phase to `IS_VALIDATING` if and only if the last finalized epoch of
the finalization state is at least `m_depositEpoch`; when it does, the state is the
old one with that phase and with `m_startDynasty` set to the start dynasty of the
validator's registry entry, and when it does not, the state is unchanged. No vote is
attempted either way. -/
theorem C9_deposit_finalized (w : WalletAnswers) (pindex : CBlockIndex) (s : ValidatorState)
    (hphase : s.m_phase = Phase.WAITING_DEPOSIT_FINALIZATION) :
    ((BlockConnected true false w pindex s).state.m_phase = Phase.IS_VALIDATING ↔
      pindex.GetState.GetLastFinalizedEpoch ≥ s.m_depositEpoch) ∧
    (pindex.GetState.GetLastFinalizedEpoch ≥ s.m_depositEpoch →
      (BlockConnected true false w pindex s).state =
        { s with
          m_phase := Phase.IS_VALIDATING
          m_startDynasty := (pindex.GetState.GetValidator s.m_validatorAddress).m_startDynasty }) ∧
    (¬ pindex.GetState.GetLastFinalizedEpoch ≥ s.m_depositEpoch →
      (BlockConnected true false w pindex s).state = s) ∧
    (BlockConnected true false w pindex s).vote = none := by
  by_cases hf : pindex.GetState.GetLastFinalizedEpoch ≥ s.m_depositEpoch
  · have hb : BlockConnected true false w pindex s =
        { state := { s with
            m_phase := Phase.IS_VALIDATING
            m_startDynasty := (pindex.GetState.GetValidator s.m_validatorAddress).m_startDynasty },
          vote := none } := by
      unfold BlockConnected
      simp only [Bool.not_false, Bool.and_self, if_true, hphase, hf]
    rw [hb]
    exact ⟨⟨fun _ => hf, fun _ => rfl⟩, fun _ => rfl, fun h => absurd hf h, rfl⟩
  · have hb : BlockConnected true false w pindex s = { state := s, vote := none } := by
      unfold BlockConnected
      simp only [Bool.not_false, Bool.and_self, if_true, hphase, hf, if_false]
    rw [hb]
    refine ⟨⟨fun h => ?_, fun h => absurd h hf⟩, fun h => absurd h hf, fun _ => rfl, rfl⟩
    rw [hphase] at h
    exact absurd h (by decide)

/-- C9 witness: the waiting example state (deposit epoch 3) receives a block whose
finalization state has finalized epoch 5 and lists the validator from dynasty 4. -/
theorem C9_deposit_finalized_witness :
    (BlockConnected true false walletOk { GetEpoch := 8, GetState := finState 10 vote67 }
      stateW).state = { stateW with m_phase := Phase.IS_VALIDATING, m_startDynasty := 4 } :=
  (C9_deposit_finalized walletOk { GetEpoch := 8, GetState := finState 10 vote67 } stateW
    rfl).2.1 (by decide)

/-- C10: `SendWithdraw` called while the phase is `IS_VALIDATING` returns false, sets
and commits no transaction, and leaves the `ValidatorState` unchanged, whatever the
wallet and the finalization state would have answered. -/
theorem C10_active_validator_cannot_withdraw (w : WalletAnswers) (state : FinalizationState)
    (address : Nat) (s : ValidatorState) (hphase : s.m_phase = Phase.IS_VALIDATING) :
    (SendWithdraw w state address s).ok = false ∧
    (SendWithdraw w state address s).tx = none ∧
    (SendWithdraw w state address s).state = s := by
  unfold SendWithdraw
  simp only [hphase, if_true, and_self]

/-- C10 witness: the validating example state asks to withdraw to key 42. -/
theorem C10_active_validator_cannot_withdraw_witness :
    (SendWithdraw walletOk (finState 10 vote67) 42 stateB).ok = false ∧
    (SendWithdraw walletOk (finState 10 vote67) 42 stateB).tx = none ∧
    (SendWithdraw walletOk (finState 10 vote67) 42 stateB).state = stateB :=
  C10_active_validator_cannot_withdraw walletOk (finState 10 vote67) 42 stateB rfl

end esperanza

namespace esperanza

/-! ## Withdraw and deposit: the claims -/

theorem SendWithdraw_state (w : WalletAnswers) (state : FinalizationState) (address : Nat)
    (s : ValidatorState) : (SendWithdraw w state address s).state = s := by
  unfold SendWithdraw
  simp only
  split
  · rfl
  · split
    · rfl
    · split
      · rfl
      · split
        · rfl
        · split <;> rfl

theorem SendWithdraw_ok_iff (w : WalletAnswers) (state : FinalizationState) (address : Nat)
    (s : ValidatorState) : (SendWithdraw w state address s).ok = true ↔
      s.m_phase ≠ Phase.IS_VALIDATING ∧
      s.m_lastEsperanzaTx.isSome = true ∧
      (state.CalculateWithdrawAmount s.m_validatorAddress).isSome = true ∧
      w.ProduceSignature = true ∧ w.IsInvalid = false := by
  unfold SendWithdraw
  by_cases hp : s.m_phase = Phase.IS_VALIDATING
  · simp [hp]
  · cases hl : s.m_lastEsperanzaTx with
    | none => simp [hp]
    | some prevTx =>
      cases hq : state.CalculateWithdrawAmount s.m_validatorAddress with
      | none => simp [hp]
      | some d =>
        cases hs : w.ProduceSignature <;> cases hi : w.IsInvalid <;> simp [hp]

end esperanza

namespace esperanza

theorem SendDeposit_state_of_not_ok (w : WalletAnswers) (keyID : Nat) (amount : CAmount)
    (s : ValidatorState) (h : (SendDeposit w keyID amount s).ok = false) :
    (SendDeposit w keyID amount s).state = s := by
  unfold SendDeposit at h ⊢
  simp only at h ⊢
  split
  · rfl
  · split
    · rfl
    · split
      · rfl
      · rename_i h1 h2 h3
        split
        · rename_i h4
          simp [h1, h2, h3, h4] at h
        · rfl

/-- C13 (the code at the failing input): `SendDeposit` called for a validator in
phase `IS_VALIDATING`, with a wallet that creates and commits the transaction, hands
the deposit transaction to the committer and returns true; only the phase is left
alone. The phase is looked at after the commit, and a wrong phase is logged as an
error without changing the result. -/
theorem C13_deposit_in_wrong_phase :
    stateB.m_phase = Phase.IS_VALIDATING ∧
    (SendDeposit walletOk 42 1000 stateB).ok = true ∧
    (SendDeposit walletOk 42 1000 stateB).tx =
      some { type := TxType.DEPOSIT
             vin := [{ hash := 500, n := 0, scriptSig := CScript.empty }]
             vout := [{ nValue := 1000, scriptPubKey := CScript.CreatePayVoteSlashScript 42 }] } ∧
    (SendDeposit walletOk 42 1000 stateB).state.m_phase = Phase.IS_VALIDATING := by
  decide

/-- C14: `SendDeposit` called in phase `NOT_VALIDATING`, when the wallet creates the
deposit transaction, `CommitTransaction` returns true and the validation state is not
invalid, returns true having committed that transaction, and the state it leaves is
the old one with the phase set to `WAITING_DEPOSIT_CONFIRMATION` and every other field
as before. -/
theorem C14_deposit_moves_phase (w : WalletAnswers) (keyID : Nat) (amount : CAmount)
    (s : ValidatorState) (wtxOut : CMutableTransaction)
    (hphase : s.m_phase = Phase.NOT_VALIDATING)
    (hcreate : w.CreateTransaction
      [{ scriptPubKey := CScript.CreatePayVoteSlashScript (w.GetPubKey keyID)
         nAmount := amount
         fSubtractFeeFromAmount := true }] TxType.DEPOSIT = some wtxOut)
    (hcommit : w.CommitTransaction = true) (hvalid : w.IsInvalid = false) :
    (SendDeposit w keyID amount s).ok = true ∧
    (SendDeposit w keyID amount s).tx = some wtxOut ∧
    (SendDeposit w keyID amount s).state =
      { s with m_phase := Phase.WAITING_DEPOSIT_CONFIRMATION } := by
  unfold SendDeposit
  simp only [hcreate, hcommit, hvalid, hphase, Bool.not_true, Bool.false_eq_true, if_false,
    if_true, and_self]

/-- C14 witness: the example state that is not validating deposits 1000. -/
theorem C14_deposit_moves_phase_witness :
    (SendDeposit walletOk 42 1000 stateN).ok = true ∧
    (SendDeposit walletOk 42 1000 stateN).tx =
      some { type := TxType.DEPOSIT
             vin := [{ hash := 500, n := 0, scriptSig := CScript.empty }]
             vout := [{ nValue := 1000, scriptPubKey := CScript.CreatePayVoteSlashScript 42 }] } ∧
    (SendDeposit walletOk 42 1000 stateN).state =
      { stateN with m_phase := Phase.WAITING_DEPOSIT_CONFIRMATION } :=
  C14_deposit_moves_phase walletOk 42 1000 stateN _ rfl rfl rfl rfl

/-- Each of the three senders returns no success and leaves the `ValidatorState` (the
phase included) as it was when one of these collaborators fails. `SendDeposit`: the
transaction cannot be created, `CommitTransaction` returns false, or the validation
state is invalid after the commit. `SendVote`: the vote or the transaction cannot be
signed, or the validation state is invalid after the commit. `SendWithdraw`: the
withdraw amount cannot be calculated, the transaction cannot be signed, or the
validation state is invalid after the commit. The boolean `CommitTransaction` returns
is read by `SendDeposit` only; whether the call stopped on a null last transaction is
told by `SendVote_fault_iff` and `SendWithdraw_fault_iff`. -/
theorem send_failure_keeps_state (w : WalletAnswers) (state : FinalizationState)
    (keyID address : Nat) (amount : CAmount) (prevTxRef : CTransactionRef) (vote : Vote)
    (s : ValidatorState) :
    ((w.CreateTransaction
        [{ scriptPubKey := CScript.CreatePayVoteSlashScript (w.GetPubKey keyID)
           nAmount := amount
           fSubtractFeeFromAmount := true }] TxType.DEPOSIT = none ∨
      w.CommitTransaction = false ∨ w.IsInvalid = true) →
      (SendDeposit w keyID amount s).ok = false ∧ (SendDeposit w keyID amount s).state = s) ∧
    ((w.CreateSignature = none ∨ w.ProduceSignature = false ∨ w.IsInvalid = true) →
      (SendVote w s prevTxRef vote).ok = false ∧ (SendVote w s prevTxRef vote).state = s) ∧
    ((state.CalculateWithdrawAmount s.m_validatorAddress = none ∨
      w.ProduceSignature = false ∨ w.IsInvalid = true) →
      (SendWithdraw w state address s).ok = false ∧
      (SendWithdraw w state address s).state = s) := by
  refine ⟨?_, ?_, ?_⟩
  · intro h
    have hok : (SendDeposit w keyID amount s).ok = false := by
      unfold SendDeposit
      simp only
      rcases h with h | h | h
      · rw [h]
      · split
        · rfl
        · simp [h]
      · split
        · rfl
        · cases hc : w.CommitTransaction <;> simp [h]
    exact ⟨hok, SendDeposit_state_of_not_ok w keyID amount s hok⟩
  · intro h
    refine ⟨?_, SendVote_state w s prevTxRef vote⟩
    cases hok : (SendVote w s prevTxRef vote).ok with
    | false => rfl
    | true =>
      obtain ⟨_, _, h1, h2, h3⟩ := (SendVote_ok_iff w s prevTxRef vote).1 hok
      rcases h with h | h | h
      · rw [h] at h1; simp at h1
      · rw [h] at h2; simp at h2
      · rw [h] at h3; simp at h3
  · intro h
    refine ⟨?_, SendWithdraw_state w state address s⟩
    cases hok : (SendWithdraw w state address s).ok with
    | false => rfl
    | true =>
      obtain ⟨_, _, h1, h2, h3⟩ := (SendWithdraw_ok_iff w state address s).1 hok
      rcases h with h | h | h
      · rw [h] at h1; simp at h1
      · rw [h] at h2; simp at h2
      · rw [h] at h3; simp at h3

/-- C15 (the code at the failing input): the wallet signs, `CommitTransaction` returns
false and the validation state stays valid. `SendDeposit` tests the returned boolean
and returns false with the state untouched. `SendVote` (validating example state) and
`SendWithdraw` (example state that is not validating) do not look at it: each returns
true with its transaction handed over, so the refusal of the committer is not reported
as a failure. Moreover `SendWithdraw` called on a freshly constructed state, which
holds no last lifecycle transaction, stops on a null pointer before the
finalization-state query, the signature and the commit are reached, whatever those
would have answered: it does not return failure either. -/
theorem C15_commit_result_discarded :
    walletRefused.CommitTransaction = false ∧
    walletRefused.IsInvalid = false ∧
    (SendDeposit walletRefused 42 1000 stateN).ok = false ∧
    (SendDeposit walletRefused 42 1000 stateN).state.m_phase = stateN.m_phase ∧
    (SendVote walletRefused stateB depositTx vote67).ok = true ∧
    (SendVote walletRefused stateB depositTx vote67).tx.isSome = true ∧
    (SendWithdraw walletRefused (finState 10 vote67) 42 stateN).ok = true ∧
    (SendWithdraw walletRefused (finState 10 vote67) 42 stateN).tx.isSome = true ∧
    walletReject.IsInvalid = true ∧
    stateFresh.m_lastEsperanzaTx = none ∧
    (SendWithdraw walletReject (finState 10 vote67) 42 stateFresh).fault = true := by
  decide

end esperanza

namespace esperanza

/-! ## Facts about the coinstake steps -/

theorem combineLoop_counts (env : StakeView) (limit : CAmount) (script : CScript)
    (coins : List CoinRef) : ∀ st : CombineState,
    st.vin.length = 1 + st.nStakesCombined →
    (combineLoop env limit script coins st).vin.length =
        1 + (combineLoop env limit script coins st).nStakesCombined ∧
      (combineLoop env limit script coins st).nStakesCombined ≤
        max st.nStakesCombined env.m_proposerSettings.m_maxStakeCombine ∧
      (combineLoop env limit script coins st).vin.length ≤ max st.vin.length 100 := by
  induction coins with
  | nil => intro st h; exact ⟨h, le_max_left _ _, le_max_left _ _⟩
  | cons pcoin rest ih =>
    intro st h
    unfold combineLoop
    simp only
    split
    · exact ⟨h, le_max_left _ _, le_max_left _ _⟩
    · split
      · exact ⟨h, le_max_left _ _, le_max_left _ _⟩
      · split
        · exact ⟨h, le_max_left _ _, le_max_left _ _⟩
        · split
          · exact ih st h
          · split
            · exact ⟨h, le_max_left _ _, le_max_left _ _⟩
            · split
              · exact ih st h
              · rename_i hmax hlen _ _ _ _
                have hstep := ih
                  { vin := st.vin ++ [{ hash := env.GetHash pcoin.1, n := pcoin.2,
                                        scriptSig := CScript.empty }]
                    nCredit := st.nCredit + (env.vout pcoin.1 pcoin.2).nValue
                    nStakesCombined := st.nStakesCombined + 1
                    vwtxPrev := st.vwtxPrev ++ [pcoin.1] }
                  (by simp only [List.length_append, List.length_singleton]; omega)
                simp only [List.length_append, List.length_singleton] at hstep
                refine ⟨hstep.1, ?_, ?_⟩
                · have := hstep.2.1
                  simp only [ge_iff_le, not_le] at hmax
                  omega
                · have := hstep.2.2
                  simp only [ge_iff_le, not_le] at hlen
                  omega

theorem combineLoop_vin (env : StakeView) (limit : CAmount) (script : CScript)
    (coins : List CoinRef) : ∀ st : CombineState,
    ∃ extra, (combineLoop env limit script coins st).vin = st.vin ++ extra := by
  induction coins with
  | nil => intro st; exact ⟨[], by simp [combineLoop]⟩
  | cons pcoin rest ih =>
    intro st
    unfold combineLoop
    simp only
    split
    · exact ⟨[], by simp⟩
    · split
      · exact ⟨[], by simp⟩
      · split
        · exact ⟨[], by simp⟩
        · split
          · exact ih st
          · split
            · exact ⟨[], by simp⟩
            · split
              · exact ih st
              · obtain ⟨extra, he⟩ := ih
                  { vin := st.vin ++ [{ hash := env.GetHash pcoin.1, n := pcoin.2,
                                        scriptSig := CScript.empty }]
                    nCredit := st.nCredit + (env.vout pcoin.1 pcoin.2).nValue
                    nStakesCombined := st.nStakesCombined + 1
                    vwtxPrev := st.vwtxPrev ++ [pcoin.1] }
                exact ⟨{ hash := env.GetHash pcoin.1, n := pcoin.2,
                         scriptSig := CScript.empty } :: extra, by rw [he]; simp⟩

theorem CreateCoinStake_some (env : StakeView) (r : CoinStake)
    (h : CreateCoinStake env = some r) :
    ∃ k st, stakeInputs env = some (k, st) ∧ r.txNew.vin = st.vin ∧
      r.txNew.vout = shapeOutputs (st.nCredit + env.GetProofOfStakeReward)
        env.m_proposerSettings.m_stakeSplitThreshold k.scriptPubKeyKernel := by
  unfold CreateCoinStake at h
  split at h
  · simp at h
  · rename_i k st hin
    simp only at h
    split at h
    · simp at h
    · split at h
      · simp at h
      · split at h
        · simp at h
        · simp only [Option.some.injEq] at h
          subst h
          exact ⟨k, st, hin, rfl, rfl⟩

theorem stakeInputs_some (env : StakeView) (k : KernelFound) (st : CombineState)
    (h : stakeInputs env = some (k, st)) :
    kernelScan env (stakeSelection env).setCoinsRet = some k ∧
    st = combineLoop env (GetStakeableBalance env.mapWallet - env.m_reserveBalance)
      k.scriptPubKeyKernel ((stakeSelection env).setCoinsRet.erase k.coin)
      (kernelState env k) := by
  unfold stakeInputs at h
  simp only at h
  split at h
  · simp at h
  · split at h
    · simp at h
    · split at h
      · simp at h
      · rename_i k2 hk
        split at h
        · simp at h
        · simp only [Option.some.injEq, Prod.mk.injEq] at h
          obtain ⟨h1, h2⟩ := h
          subst h1
          exact ⟨hk, h2.symm⟩

end esperanza

namespace esperanza

/-! ## The order of the selected set -/

theorem pairLess_trans (a b c : CoinRef) (h1 : pairLess a b = true) (h2 : pairLess b c = true) :
    pairLess a c = true := by
  obtain ⟨a1, a2⟩ := a
  obtain ⟨b1, b2⟩ := b
  obtain ⟨c1, c2⟩ := c
  simp only [pairLess, Bool.or_eq_true, Bool.and_eq_true, decide_eq_true_eq,
    Bool.not_eq_true', decide_eq_false_iff_not] at h1 h2 ⊢
  rcases h1 with h1 | ⟨h1, h1b⟩ <;> rcases h2 with h2 | ⟨h2, h2b⟩
  · left; omega
  · left; omega
  · left; omega
  · right; exact ⟨by omega, by omega⟩

theorem setInsert_sorted (c : CoinRef) (s : List CoinRef)
    (h : List.Pairwise (fun a b => pairLess a b = true) s) :
    List.Pairwise (fun a b => pairLess a b = true) (setInsert c s) := by
  induction s with
  | nil => simp [setInsert]
  | cons d ds ih =>
    rw [List.pairwise_cons] at h
    obtain ⟨hd, hds⟩ := h
    unfold setInsert
    by_cases h1 : pairLess c d = true
    · rw [if_pos h1]
      refine List.pairwise_cons.2 ⟨?_, List.pairwise_cons.2 ⟨hd, hds⟩⟩
      intro x hx
      rcases List.mem_cons.1 hx with e | hx
      · rw [e]; exact h1
      · exact pairLess_trans c d x h1 (hd x hx)
    · rw [if_neg h1]
      by_cases h2 : pairLess d c = true
      · rw [if_pos h2]
        refine List.pairwise_cons.2 ⟨?_, ih hds⟩
        intro x hx
        rcases (mem_setInsert c x ds).1 hx with e | hx
        · rw [e]; exact h2
        · exact hd x hx
      · rw [if_neg h2]
        exact List.pairwise_cons.2 ⟨hd, hds⟩

theorem selectLoop_sorted (nValue : ValueTable) (EEES nTargetValue : CAmount)
    (cands : List COutput) : ∀ (s : List CoinRef) (v : CAmount),
    List.Pairwise (fun a b => pairLess a b = true) s →
    List.Pairwise (fun a b => pairLess a b = true)
      (selectLoop nValue EEES nTargetValue cands s v).1 := by
  induction cands with
  | nil => intro s v h; simpa [selectLoop] using h
  | cons o rest ih =>
    intro s v h
    unfold selectLoop
    by_cases h1 : v ≥ nTargetValue
    · rw [if_pos h1]; exact h
    · rw [if_neg h1]
      by_cases h2 : nValue o.tx o.i ≥ nTargetValue
      · simp only [h2, if_true]
        exact setInsert_sorted _ _ h
      · by_cases h3 : nValue o.tx o.i < wrap64 (nTargetValue + EEES)
        · simp only [h2, h3, if_true, if_false]
          exact ih _ _ (setInsert_sorted _ _ h)
        · simp only [h2, h3, if_false]
          exact ih _ _ h

/-! ## Facts about the kernel scan -/

theorem resolveKernel_coin (env : StakeView) (pcoin : CoinRef) (script : CScript)
    (cond : Bool) (k : KernelFound) (h : resolveKernel env pcoin script cond = some k) :
    k.coin = pcoin := by
  unfold resolveKernel at h
  split at h
  · simp at h
  · split at h
    · split at h
      · simp at h
      · simp only [Option.some.injEq] at h
        rw [← h]
    · simp at h

theorem kernelScan_some (env : StakeView) (l : List CoinRef) :
    ∀ k : KernelFound, kernelScan env l = some k →
    ∃ before after, l = before ++ k.coin :: after ∧
      env.CheckKernel (env.GetHash k.coin.1) k.coin.2 = true ∧
      ∀ c ∈ before, env.CheckKernel (env.GetHash c.1) c.2 = false ∨
        (env.HasIsCoinstakeOp (env.vout c.1 c.2).scriptPubKey = true ∧
          env.GetCoinstakeScriptPath (env.vout c.1 c.2).scriptPubKey = none) := by
  induction l with
  | nil => intro k h; simp [kernelScan] at h
  | cons pcoin rest ih =>
    intro k h
    unfold kernelScan at h
    by_cases hk : env.CheckKernel (env.GetHash pcoin.1) pcoin.2 = true
    · rw [if_pos hk] at h
      simp only at h
      by_cases hop : env.HasIsCoinstakeOp (env.vout pcoin.1 pcoin.2).scriptPubKey = true
      · rw [if_pos hop] at h
        cases hpath : env.GetCoinstakeScriptPath (env.vout pcoin.1 pcoin.2).scriptPubKey with
        | none =>
          rw [hpath] at h
          obtain ⟨before, after, hl, hhit, hbefore⟩ := ih k h
          refine ⟨pcoin :: before, after, by rw [hl]; rfl, hhit, ?_⟩
          intro c hc
          rcases List.mem_cons.1 hc with e | hc
          · rw [e]; exact Or.inr ⟨hop, hpath⟩
          · exact hbefore c hc
        | some path =>
          rw [hpath] at h
          have hc := resolveKernel_coin env pcoin path true k h
          refine ⟨[], rest, by rw [hc]; rfl, by rw [hc]; exact hk, by simp⟩
      · rw [if_neg hop] at h
        have hc := resolveKernel_coin env pcoin _ false k h
        refine ⟨[], rest, by rw [hc]; rfl, by rw [hc]; exact hk, by simp⟩
    · rw [if_neg hk] at h
      obtain ⟨before, after, hl, hhit, hbefore⟩ := ih k h
      refine ⟨pcoin :: before, after, by rw [hl]; rfl, hhit, ?_⟩
      intro c hc
      rcases List.mem_cons.1 hc with e | hc
      · rw [e]; exact Or.inl (by simpa using hk)
      · exact hbefore c hc

theorem kernelScan_no_hit (env : StakeView) (l : List CoinRef)
    (h : ∀ c ∈ l, env.CheckKernel (env.GetHash c.1) c.2 = false) : kernelScan env l = none := by
  induction l with
  | nil => rfl
  | cons pcoin rest ih =>
    unfold kernelScan
    have hp : env.CheckKernel (env.GetHash pcoin.1) pcoin.2 = false := h pcoin (by simp)
    simp only [hp, Bool.false_eq_true, if_false]
    exact ih (fun c hc => h c (by simp [hc]))

end esperanza

namespace esperanza

/-! ## Coinstake: the claims -/

/-- C16: in the output shaping of `CreateCoinStake`, a non-negative total credit `C` at or
above the split threshold gives exactly two outputs, the first worth the floor of
`C / 2` and the second worth `C` minus that, which sum to `C`; a credit below the
threshold gives exactly one output worth `C`. All outputs pay the kernel script. -/
theorem C16_split_outputs (C m_stakeSplitThreshold : CAmount) (scriptPubKeyKernel : CScript) :
    (0 ≤ C → m_stakeSplitThreshold ≤ C →
      shapeOutputs C m_stakeSplitThreshold scriptPubKeyKernel =
        [{ nValue := ⌊(C : ℚ) / 2⌋, scriptPubKey := scriptPubKeyKernel },
         { nValue := C - ⌊(C : ℚ) / 2⌋, scriptPubKey := scriptPubKeyKernel }] ∧
      ((shapeOutputs C m_stakeSplitThreshold scriptPubKeyKernel).map CTxOut.nValue).sum = C) ∧
    (C < m_stakeSplitThreshold →
      shapeOutputs C m_stakeSplitThreshold scriptPubKeyKernel =
        [{ nValue := C, scriptPubKey := scriptPubKeyKernel }]) := by
  constructor
  · intro h0 hC
    have h1 : Int.tdiv C 2 = C / 2 := Int.tdiv_eq_ediv h0 (by decide)
    have h2 : ⌊(C : ℚ) / 2⌋ = C / 2 := by
      have := Rat.floor_intCast_div_natCast C 2
      simpa using this
    have hs : shapeOutputs C m_stakeSplitThreshold scriptPubKeyKernel =
        [{ nValue := ⌊(C : ℚ) / 2⌋, scriptPubKey := scriptPubKeyKernel },
         { nValue := C - ⌊(C : ℚ) / 2⌋, scriptPubKey := scriptPubKeyKernel }] := by
      unfold shapeOutputs
      rw [if_pos hC, h1, h2]
    refine ⟨hs, ?_⟩
    rw [hs]
    simp only [List.map_cons, List.map_nil, List.sum_cons, List.sum_nil]
    ring
  · intro hC
    unfold shapeOutputs
    rw [if_neg (not_le.2 hC)]

/-- C16 witness: a credit of 105 against a threshold of 60 is split into 52 and 53. -/
theorem C16_split_outputs_witness :
    shapeOutputs 105 60 (CScript.CreateP2PKHScript 7) =
        [{ nValue := ⌊((105 : CAmount) : ℚ) / 2⌋, scriptPubKey := CScript.CreateP2PKHScript 7 },
         { nValue := 105 - ⌊((105 : CAmount) : ℚ) / 2⌋,
           scriptPubKey := CScript.CreateP2PKHScript 7 }] ∧
      ((shapeOutputs 105 60 (CScript.CreateP2PKHScript 7)).map CTxOut.nValue).sum = 105 :=
  (C16_split_outputs 105 60 (CScript.CreateP2PKHScript 7)).1 (by decide) (by decide)

/-- C17: whatever the remaining selected coins and the settings, the combine loop of
`CreateCoinStake`, started with the kernel as the only input, adds at most
`m_maxStakeCombine` inputs and leaves at most 100 inputs in all; the inputs of a
coinstake that `CreateCoinStake` returns are those the loop left. -/
theorem C17_combine_caps (env : StakeView) :
    (∀ (limit : CAmount) (scriptPubKeyKernel : CScript) (coins : List CoinRef)
        (k : KernelFound),
      (combineLoop env limit scriptPubKeyKernel coins (kernelState env k)).nStakesCombined
          ≤ env.m_proposerSettings.m_maxStakeCombine ∧
      (combineLoop env limit scriptPubKeyKernel coins (kernelState env k)).vin.length =
          1 + (combineLoop env limit scriptPubKeyKernel coins
            (kernelState env k)).nStakesCombined ∧
      (combineLoop env limit scriptPubKeyKernel coins (kernelState env k)).vin.length ≤ 100) ∧
    (∀ r : CoinStake, CreateCoinStake env = some r →
      r.txNew.vin.length ≤ 1 + env.m_proposerSettings.m_maxStakeCombine ∧
      r.txNew.vin.length ≤ 100) := by
  have hloop : ∀ (limit : CAmount) (scriptPubKeyKernel : CScript) (coins : List CoinRef)
        (k : KernelFound),
      (combineLoop env limit scriptPubKeyKernel coins (kernelState env k)).nStakesCombined
          ≤ env.m_proposerSettings.m_maxStakeCombine ∧
      (combineLoop env limit scriptPubKeyKernel coins (kernelState env k)).vin.length =
          1 + (combineLoop env limit scriptPubKeyKernel coins
            (kernelState env k)).nStakesCombined ∧
      (combineLoop env limit scriptPubKeyKernel coins (kernelState env k)).vin.length ≤ 100 := by
    intro limit script coins k
    obtain ⟨h1, h2, h3⟩ := combineLoop_counts env limit script coins (kernelState env k) rfl
    refine ⟨?_, h1, ?_⟩
    · simpa [kernelState] using h2
    · simpa [kernelState] using h3
  refine ⟨hloop, ?_⟩
  intro r hr
  obtain ⟨k, st, hin, hvin, _⟩ := CreateCoinStake_some env r hr
  obtain ⟨_, hst⟩ := stakeInputs_some env k st hin
  obtain ⟨h1, h2, h3⟩ := hloop (GetStakeableBalance env.mapWallet - env.m_reserveBalance)
    k.scriptPubKeyKernel ((stakeSelection env).setCoinsRet.erase k.coin) k
  rw [hvin, hst]
  exact ⟨by omega, h3⟩

/-- C19 (as stated, refuted): the candidates are the coin at address 2 and then the
coin at address 1, both are selected in that order and both pass the kernel test. The
first hit in selection order is the coin at address 2, but the set is walked from its
smallest element and the kernel input is the coin at address 1. -/
theorem C19_counterexample :
    (viewTwoCoins 2000).AvailableCoinsForStaking = [⟨2, 0⟩, ⟨1, 0⟩] ∧
    (stakeSelection (viewTwoCoins 2000)).setCoinsRet = [(1, 0), (2, 0)] ∧
    firstHitInSelectionOrder (viewTwoCoins 2000) = some (2, 0) ∧
    (kernelScan (viewTwoCoins 2000) (stakeSelection (viewTwoCoins 2000)).setCoinsRet).map
      KernelFound.coin = some (1, 0) ∧
    (CreateCoinStake (viewTwoCoins 2000)).map (fun r => r.txNew.vin.head?) =
      some (some { hash := 1001, n := 0, scriptSig := CScript.empty }) := by
  decide

/-- C19 (amended): in `CreateCoinStake` the kernel test is run over the selected coins
in the order of the set `setCoins`, ascending by (address of the wallet transaction,
output index), which need not be the order of selection. When a coinstake is built,
its first input is the kernel, the first coin in that order for which the kernel test
hits, not counting hits passed over because the coinstake script path could not be
read. If no selected coin hits, the build fails. -/
theorem C19_kernel_in_set_order (env : StakeView) :
    List.Pairwise (fun a b => pairLess a b = true) (stakeSelection env).setCoinsRet ∧
    ((∀ c ∈ (stakeSelection env).setCoinsRet,
        env.CheckKernel (env.GetHash c.1) c.2 = false) → CreateCoinStake env = none) ∧
    (∀ r : CoinStake, CreateCoinStake env = some r →
      ∃ (k : KernelFound) (before after : List CoinRef),
        kernelScan env (stakeSelection env).setCoinsRet = some k ∧
        (stakeSelection env).setCoinsRet = before ++ k.coin :: after ∧
        env.CheckKernel (env.GetHash k.coin.1) k.coin.2 = true ∧
        (∀ c ∈ before, env.CheckKernel (env.GetHash c.1) c.2 = false ∨
          (env.HasIsCoinstakeOp (env.vout c.1 c.2).scriptPubKey = true ∧
            env.GetCoinstakeScriptPath (env.vout c.1 c.2).scriptPubKey = none)) ∧
        r.txNew.vin.head? =
          some { hash := env.GetHash k.coin.1, n := k.coin.2, scriptSig := CScript.empty }) := by
  refine ⟨?_, ?_, ?_⟩
  · unfold stakeSelection SelectCoinsForStaking
    exact selectLoop_sorted _ _ _ _ [] 0 List.Pairwise.nil
  · intro hno
    have hscan := kernelScan_no_hit env _ hno
    have hin : stakeInputs env = none := by
      unfold stakeInputs
      simp only [hscan]
      split
      · rfl
      · split <;> rfl
    unfold CreateCoinStake
    rw [hin]
  · intro r hr
    obtain ⟨k, st, hin, hvin, _⟩ := CreateCoinStake_some env r hr
    obtain ⟨hscan, hst⟩ := stakeInputs_some env k st hin
    obtain ⟨before, after, hl, hhit, hbefore⟩ := kernelScan_some env _ k hscan
    refine ⟨k, before, after, hscan, hl, hhit, hbefore, ?_⟩
    obtain ⟨extra, he⟩ := combineLoop_vin env
      (GetStakeableBalance env.mapWallet - env.m_reserveBalance) k.scriptPubKeyKernel
      ((stakeSelection env).setCoinsRet.erase k.coin) (kernelState env k)
    rw [hvin, hst, he]
    rfl

/-- C19 witness: for the two example coins the kernel of the built coinstake is the
coin at address 1, the smallest element of the set, with no element before it. -/
theorem C19_kernel_in_set_order_witness :
    ∃ (k : KernelFound) (before after : List CoinRef),
      kernelScan (viewTwoCoins 2000) (stakeSelection (viewTwoCoins 2000)).setCoinsRet = some k ∧
      (stakeSelection (viewTwoCoins 2000)).setCoinsRet = before ++ k.coin :: after ∧
      (viewTwoCoins 2000).CheckKernel ((viewTwoCoins 2000).GetHash k.coin.1) k.coin.2 = true ∧
      (∀ c ∈ before, (viewTwoCoins 2000).CheckKernel ((viewTwoCoins 2000).GetHash c.1) c.2
          = false ∨
        ((viewTwoCoins 2000).HasIsCoinstakeOp ((viewTwoCoins 2000).vout c.1 c.2).scriptPubKey
            = true ∧
          (viewTwoCoins 2000).GetCoinstakeScriptPath
            ((viewTwoCoins 2000).vout c.1 c.2).scriptPubKey = none)) ∧
      (({ txNew :=
            { type := TxType.COINBASE
              vin := [{ hash := 1001, n := 0, scriptSig := CScript.empty },
                      { hash := 1002, n := 0, scriptSig := CScript.empty }]
              vout := [{ nValue := 105, scriptPubKey := CScript.CreateP2PKHScript 7 }] }
          keyOut := 9 } : CoinStake).txNew.vin.head?) =
        some { hash := (viewTwoCoins 2000).GetHash k.coin.1, n := k.coin.2,
               scriptSig := CScript.empty } :=
  (C19_kernel_in_set_order (viewTwoCoins 2000)).2.2 _ (by decide)

end esperanza

namespace staking

/-! ## The coin comparator: the claims -/

/-- C20: for all coins `left` and `right`, `CoinByAmountComparator` answers true exactly
when (amount, height, transaction id, output index) of `left` comes before that of
`right` in the lexicographic order that takes the amount descending and the height,
the transaction id and the output index ascending. -/
theorem C20_comparator_is_lexicographic (left right : Coin) :
    CoinByAmountComparator left right = true ↔ precedes left right := by
  unfold CoinByAmountComparator precedes
  rcases lt_trichotomy left.GetAmount right.GetAmount with ha | ha | ha
  · have h1 : ¬ left.GetAmount > right.GetAmount := not_lt.2 (le_of_lt ha)
    have h2 : left.GetAmount ≠ right.GetAmount := ne_of_lt ha
    simp [h1, ha, h2]
  · have h1 : ¬ left.GetAmount > right.GetAmount := by rw [ha]; exact lt_irrefl _
    have h2 : ¬ left.GetAmount < right.GetAmount := by rw [ha]; exact lt_irrefl _
    simp only [h1, h2, ha, if_false, false_or, true_and]
    rcases lt_trichotomy left.GetHeight right.GetHeight with hh | hh | hh
    · simp [hh]
    · have h3 : ¬ right.GetHeight < right.GetHeight := lt_irrefl _
      simp only [hh, h3, gt_iff_lt, if_false, false_or, true_and]
      rcases lt_trichotomy left.GetTransactionId right.GetTransactionId with ht | ht | ht
      · simp [ht]
      · simp [ht]
      · have h4 : ¬ left.GetTransactionId < right.GetTransactionId := not_lt.2 (le_of_lt ht)
        have h5 : left.GetTransactionId ≠ right.GetTransactionId := (ne_of_lt ht).symm
        simp [h4, h5]
    · have h3 : ¬ left.GetHeight < right.GetHeight := not_lt.2 (le_of_lt hh)
      have h4 : left.GetHeight ≠ right.GetHeight := (ne_of_lt hh).symm
      simp [h3, hh, h4]
  · have h2 : ¬ left.GetAmount = right.GetAmount := (ne_of_lt ha).symm
    simp [ha, h2]

end staking

namespace esperanza

/-! ## Facts about the vote step and the block event -/

theorem VoteIfNeeded_state_of_voted (w : WalletAnswers) (blockIndex : CBlockIndex)
    (s : ValidatorState) (h : (VoteIfNeeded w blockIndex s).path = VotePath.voted) :
    (VoteIfNeeded w blockIndex s).state =
      { s with
        m_voteMap := Function.update s.m_voteMap blockIndex.GetEpoch
          (some (blockIndex.GetState.GetRecommendedVote s.m_validatorAddress))
        m_lastTargetEpoch :=
          (blockIndex.GetState.GetRecommendedVote s.m_validatorAddress).m_targetEpoch
        m_lastSourceEpoch :=
          (blockIndex.GetState.GetRecommendedVote s.m_validatorAddress).m_sourceEpoch } ∧
    (VoteIfNeeded w blockIndex s).tx.isSome = true := by
  obtain ⟨h1, h2, h3, h4, h5, h6, hl, h7, h8, h9⟩ :=
    (VoteIfNeeded_voted_iff w blockIndex s).1 h
  have hsend : (SendVote w s s.m_lastEsperanzaTx
      (blockIndex.GetState.GetRecommendedVote s.m_validatorAddress)).ok = true :=
    (SendVote_ok_iff _ _ _ _).2 ⟨h6, hl, h7, h8, h9⟩
  have htx : (SendVote w s s.m_lastEsperanzaTx
      (blockIndex.GetState.GetRecommendedVote s.m_validatorAddress)).tx.isSome = true := by
    unfold SendVote
    cases hl2 : s.m_lastEsperanzaTx with
    | none => rw [hl2] at hl; simp at hl
    | some prevTx =>
      cases hc : w.CreateSignature with
      | none => rw [hc] at h7; simp at h7
      | some sig => simp [h6, h8, h9]
  have e1 : ¬ blockIndex.GetState.GetCurrentDynasty ≥ s.m_endDynasty := not_le.2 h2
  have e2 : ¬ blockIndex.GetState.GetCurrentDynasty < s.m_startDynasty := not_lt.2 h1
  have e3 : ¬ ((blockIndex.GetState.GetRecommendedVote s.m_validatorAddress).m_targetEpoch
      < s.m_lastTargetEpoch ∨
      (blockIndex.GetState.GetRecommendedVote s.m_validatorAddress).m_sourceEpoch
      < s.m_lastSourceEpoch) := by
    intro hc
    rcases hc with hc | hc
    · exact absurd hc (not_lt.2 h4)
    · exact absurd hc (not_lt.2 h5)
  unfold VoteIfNeeded
  simp only [e1, e2, e3, h3, hsend, htx, SendVote_state, if_false, if_true,
    Option.isSome_none, Bool.false_eq_true, and_self]

theorem VoteIfNeeded_ended (w : WalletAnswers) (blockIndex : CBlockIndex) (s : ValidatorState)
    (h : blockIndex.GetState.GetCurrentDynasty ≥ s.m_endDynasty) :
    VoteIfNeeded w blockIndex s = { state := s, path := VotePath.dynastyEnded, tx := none } := by
  unfold VoteIfNeeded
  simp only [h, if_true]

theorem VoteIfNeeded_not_started (w : WalletAnswers) (blockIndex : CBlockIndex)
    (s : ValidatorState) (h1 : ¬ blockIndex.GetState.GetCurrentDynasty ≥ s.m_endDynasty)
    (h2 : blockIndex.GetState.GetCurrentDynasty < s.m_startDynasty) :
    VoteIfNeeded w blockIndex s =
      { state := s, path := VotePath.dynastyNotStarted, tx := none } := by
  unfold VoteIfNeeded
  simp only [h1, h2, if_true, if_false]

theorem VoteIfNeeded_frame (w : WalletAnswers) (blockIndex : CBlockIndex) (s : ValidatorState) :
    (VoteIfNeeded w blockIndex s).state.m_phase = s.m_phase ∧
    (VoteIfNeeded w blockIndex s).state.m_endDynasty = s.m_endDynasty ∧
    (VoteIfNeeded w blockIndex s).state.m_startDynasty = s.m_startDynasty := by
  by_cases hv : (VoteIfNeeded w blockIndex s).path = VotePath.voted
  · rw [(VoteIfNeeded_state_of_voted w blockIndex s hv).1]
    exact ⟨rfl, rfl, rfl⟩
  · rw [VoteIfNeeded_state_of_not_voted w blockIndex s hv]
    exact ⟨rfl, rfl, rfl⟩

theorem BlockConnected_closed (nIsValidatorEnabled isInitialBlockDownload : Bool)
    (w : WalletAnswers) (pindex : CBlockIndex) (s : ValidatorState)
    (h : nIsValidatorEnabled = false ∨ isInitialBlockDownload = true) :
    BlockConnected nIsValidatorEnabled isInitialBlockDownload w pindex s =
      { state := s, vote := none } := by
  unfold BlockConnected
  rcases h with h | h
  · simp [h]
  · simp [h]

theorem BlockConnected_validating (w : WalletAnswers) (pindex : CBlockIndex)
    (s : ValidatorState) (hphase : s.m_phase = Phase.IS_VALIDATING) :
    (BlockConnected true false w pindex s).vote = some (VoteIfNeeded w pindex s) ∧
    (BlockConnected true false w pindex s).state =
      (if pindex.GetState.GetCurrentDynasty ≥ s.m_endDynasty then
        { (VoteIfNeeded w pindex s).state with m_phase := Phase.NOT_VALIDATING }
       else (VoteIfNeeded w pindex s).state) := by
  have hend := (VoteIfNeeded_frame w pindex s).2.1
  unfold BlockConnected
  simp only [Bool.not_false, Bool.and_self, if_true, hphase, hend]
  split <;> exact ⟨rfl, rfl⟩

/-! ## Votes and block events: the claims -/

/-- C21: when `VoteIfNeeded` commits a vote for a connected block of epoch `e`, the
state it leaves has the old vote map with `e` mapped to that vote, the last source
and last target epochs of the vote, and the phase, the start and end dynasties, the
deposit epoch and the validator address it had before. -/
theorem C21_committed_vote_is_recorded (w : WalletAnswers) (blockIndex : CBlockIndex)
    (s : ValidatorState) (hvoted : (VoteIfNeeded w blockIndex s).path = VotePath.voted) :
    (VoteIfNeeded w blockIndex s).state.m_voteMap =
      Function.update s.m_voteMap blockIndex.GetEpoch
        (some (blockIndex.GetState.GetRecommendedVote s.m_validatorAddress)) ∧
    (VoteIfNeeded w blockIndex s).state.m_voteMap blockIndex.GetEpoch =
      some (blockIndex.GetState.GetRecommendedVote s.m_validatorAddress) ∧
    (∀ epoch, epoch ≠ blockIndex.GetEpoch →
      (VoteIfNeeded w blockIndex s).state.m_voteMap epoch = s.m_voteMap epoch) ∧
    (VoteIfNeeded w blockIndex s).state.m_lastSourceEpoch =
      (blockIndex.GetState.GetRecommendedVote s.m_validatorAddress).m_sourceEpoch ∧
    (VoteIfNeeded w blockIndex s).state.m_lastTargetEpoch =
      (blockIndex.GetState.GetRecommendedVote s.m_validatorAddress).m_targetEpoch ∧
    (VoteIfNeeded w blockIndex s).state.m_phase = s.m_phase ∧
    (VoteIfNeeded w blockIndex s).state.m_startDynasty = s.m_startDynasty ∧
    (VoteIfNeeded w blockIndex s).state.m_endDynasty = s.m_endDynasty ∧
    (VoteIfNeeded w blockIndex s).state.m_depositEpoch = s.m_depositEpoch ∧
    (VoteIfNeeded w blockIndex s).state.m_validatorAddress = s.m_validatorAddress ∧
    (VoteIfNeeded w blockIndex s).state.m_lastEsperanzaTx = s.m_lastEsperanzaTx := by
  rw [(VoteIfNeeded_state_of_voted w blockIndex s hvoted).1]
  refine ⟨rfl, ?_, ?_, rfl, rfl, rfl, rfl, rfl, rfl, rfl, rfl⟩
  · simp
  · intro epoch hne
    simp [Function.update_noteq hne]

/-- C21 witness: the validating example state with one vote at epoch 7 votes for a
block of epoch 8. -/
theorem C21_committed_vote_is_recorded_witness :
    (VoteIfNeeded walletOk blockEight stateB).state.m_voteMap 8 = some vote67 ∧
    (VoteIfNeeded walletOk blockEight stateB).state.m_voteMap 7 = some vote67 ∧
    (VoteIfNeeded walletOk blockEight stateB).state.m_lastSourceEpoch = 6 ∧
    (VoteIfNeeded walletOk blockEight stateB).state.m_lastTargetEpoch = 7 ∧
    (VoteIfNeeded walletOk blockEight stateB).state.m_phase = Phase.IS_VALIDATING :=
  ⟨(C21_committed_vote_is_recorded walletOk blockEight stateB (by decide)).2.1,
   (C21_committed_vote_is_recorded walletOk blockEight stateB (by decide)).2.2.1 7 (by decide),
   (C21_committed_vote_is_recorded walletOk blockEight stateB (by decide)).2.2.2.1,
   (C21_committed_vote_is_recorded walletOk blockEight stateB (by decide)).2.2.2.2.1,
   (C21_committed_vote_is_recorded walletOk blockEight stateB (by decide)).2.2.2.2.2.1⟩

/-- C22: for a `BlockConnected` event received in phase `IS_VALIDATING`, whatever the
enabled flag and the download status: the vote guard is reached, and a vote
transaction handed to the committer, only if the current dynasty lies in
[`m_startDynasty`, `m_endDynasty`); the phase stays `IS_VALIDATING` whenever the
current dynasty is below `m_endDynasty`; and when the current dynasty is below
`m_startDynasty` no vote is cast: the vote map is as before and no transaction is
committed. -/
theorem C22_vote_only_in_window (nIsValidatorEnabled isInitialBlockDownload : Bool)
    (w : WalletAnswers) (pindex : CBlockIndex) (s : ValidatorState)
    (hphase : s.m_phase = Phase.IS_VALIDATING) :
    (∀ v, (BlockConnected nIsValidatorEnabled isInitialBlockDownload w pindex s).vote = some v →
      ((v.path ≠ VotePath.dynastyEnded ∧ v.path ≠ VotePath.dynastyNotStarted) ∨
        v.tx.isSome = true) →
      s.m_startDynasty ≤ pindex.GetState.GetCurrentDynasty ∧
      pindex.GetState.GetCurrentDynasty < s.m_endDynasty) ∧
    (pindex.GetState.GetCurrentDynasty < s.m_endDynasty →
      (BlockConnected nIsValidatorEnabled isInitialBlockDownload w pindex s).state.m_phase =
        Phase.IS_VALIDATING) ∧
    (pindex.GetState.GetCurrentDynasty < s.m_startDynasty →
      (BlockConnected nIsValidatorEnabled isInitialBlockDownload w pindex s).state.m_voteMap =
        s.m_voteMap ∧
      ∀ v, (BlockConnected nIsValidatorEnabled isInitialBlockDownload w pindex s).vote = some v →
        v.tx = none) := by
  by_cases hgate : nIsValidatorEnabled = false ∨ isInitialBlockDownload = true
  · rw [BlockConnected_closed _ _ w pindex s hgate]
    refine ⟨fun v hv => by simp at hv, fun _ => hphase, fun _ => ⟨rfl, fun v hv => by simp at hv⟩⟩
  · have hen : nIsValidatorEnabled = true := by
      cases nIsValidatorEnabled
      · exact absurd (Or.inl rfl) hgate
      · rfl
    have hibd : isInitialBlockDownload = false := by
      cases isInitialBlockDownload
      · rfl
      · exact absurd (Or.inr rfl) hgate
    subst hen
    subst hibd
    obtain ⟨hvote, hstate⟩ := BlockConnected_validating w pindex s hphase
    rw [hvote, hstate]
    refine ⟨?_, ?_, ?_⟩
    · intro v hv hatt
      simp only [Option.some.injEq] at hv
      subst hv
      by_cases h1 : pindex.GetState.GetCurrentDynasty ≥ s.m_endDynasty
      · rw [VoteIfNeeded_ended w pindex s h1] at hatt
        simp at hatt
      · by_cases h2 : pindex.GetState.GetCurrentDynasty < s.m_startDynasty
        · rw [VoteIfNeeded_not_started w pindex s h1 h2] at hatt
          simp at hatt
        · exact ⟨not_lt.1 h2, not_le.1 h1⟩
    · intro hlt
      rw [if_neg (not_le.2 hlt)]
      rw [(VoteIfNeeded_frame w pindex s).1]
      exact hphase
    · intro hlt
      have hv : VoteIfNeeded w pindex s =
          { state := s, path := VotePath.dynastyEnded, tx := none } ∨
          VoteIfNeeded w pindex s =
          { state := s, path := VotePath.dynastyNotStarted, tx := none } := by
        by_cases h1 : pindex.GetState.GetCurrentDynasty ≥ s.m_endDynasty
        · exact Or.inl (VoteIfNeeded_ended w pindex s h1)
        · exact Or.inr (VoteIfNeeded_not_started w pindex s h1 hlt)
      rcases hv with hv | hv
      · rw [hv]
        refine ⟨?_, fun v h => ?_⟩
        · split <;> rfl
        · simp only [Option.some.injEq] at h
          rw [← h]
      · rw [hv]
        refine ⟨?_, fun v h => ?_⟩
        · split <;> rfl
        · simp only [Option.some.injEq] at h
          rw [← h]

/-- C22 witness: the validating example state receives a block of dynasty 10, inside
its window from 0 to 100, and stays in phase `IS_VALIDATING`. -/
theorem C22_vote_only_in_window_witness :
    (BlockConnected true false walletOk blockEight stateB).state.m_phase =
      Phase.IS_VALIDATING :=
  (C22_vote_only_in_window true false walletOk blockEight stateB rfl).2.1 (by decide)

/-- C23: `BlockConnected` changes the phase only along two edges: when the phase after
the event differs from the phase before, either it went from
`WAITING_DEPOSIT_FINALIZATION` to `IS_VALIDATING` or from `IS_VALIDATING` to
`NOT_VALIDATING`. When the validator is not enabled, the node is in initial block
download, or the phase is `NOT_VALIDATING` or `WAITING_DEPOSIT_CONFIRMATION`, the
whole state is as before and no vote is attempted. -/
theorem C23_phase_edges (nIsValidatorEnabled isInitialBlockDownload : Bool)
    (w : WalletAnswers) (pindex : CBlockIndex) (s : ValidatorState) :
    ((BlockConnected nIsValidatorEnabled isInitialBlockDownload w pindex s).state.m_phase ≠
        s.m_phase →
      (s.m_phase = Phase.WAITING_DEPOSIT_FINALIZATION ∧
        (BlockConnected nIsValidatorEnabled isInitialBlockDownload w pindex s).state.m_phase =
          Phase.IS_VALIDATING) ∨
      (s.m_phase = Phase.IS_VALIDATING ∧
        (BlockConnected nIsValidatorEnabled isInitialBlockDownload w pindex s).state.m_phase =
          Phase.NOT_VALIDATING)) ∧
    ((nIsValidatorEnabled = false ∨ isInitialBlockDownload = true ∨
        s.m_phase = Phase.NOT_VALIDATING ∨ s.m_phase = Phase.WAITING_DEPOSIT_CONFIRMATION) →
      (BlockConnected nIsValidatorEnabled isInitialBlockDownload w pindex s).state = s ∧
      (BlockConnected nIsValidatorEnabled isInitialBlockDownload w pindex s).vote = none) := by
  by_cases hgate : nIsValidatorEnabled = false ∨ isInitialBlockDownload = true
  · rw [BlockConnected_closed _ _ w pindex s hgate]
    exact ⟨fun h => absurd rfl h, fun _ => ⟨rfl, rfl⟩⟩
  · have hen : nIsValidatorEnabled = true := by
      cases nIsValidatorEnabled
      · exact absurd (Or.inl rfl) hgate
      · rfl
    have hibd : isInitialBlockDownload = false := by
      cases isInitialBlockDownload
      · rfl
      · exact absurd (Or.inr rfl) hgate
    subst hen
    subst hibd
    cases hp : s.m_phase with
    | NOT_VALIDATING =>
      have hb : BlockConnected true false w pindex s = { state := s, vote := none } := by
        unfold BlockConnected
        simp only [Bool.not_false, Bool.and_self, if_true, hp]
      rw [hb]
      exact ⟨fun h => absurd hp h, fun _ => ⟨rfl, rfl⟩⟩
    | WAITING_DEPOSIT_CONFIRMATION =>
      have hb : BlockConnected true false w pindex s = { state := s, vote := none } := by
        unfold BlockConnected
        simp only [Bool.not_false, Bool.and_self, if_true, hp]
      rw [hb]
      exact ⟨fun h => absurd hp h, fun _ => ⟨rfl, rfl⟩⟩
    | WAITING_DEPOSIT_FINALIZATION =>
      refine ⟨?_, fun h => ?_⟩
      · intro hne
        left
        refine ⟨rfl, ?_⟩
        by_cases hf : pindex.GetState.GetLastFinalizedEpoch ≥ s.m_depositEpoch
        · unfold BlockConnected
          simp only [Bool.not_false, Bool.and_self, if_true, hp, hf]
        · exfalso
          apply hne
          unfold BlockConnected
          simp only [Bool.not_false, Bool.and_self, if_true, hp, hf, if_false]
      · rcases h with h | h | h | h <;> simp at h
    | IS_VALIDATING =>
      obtain ⟨_, hstate⟩ := BlockConnected_validating w pindex s hp
      refine ⟨?_, fun h => ?_⟩
      · intro hne
        right
        refine ⟨rfl, ?_⟩
        rw [hstate] at hne ⊢
        by_cases hd : pindex.GetState.GetCurrentDynasty ≥ s.m_endDynasty
        · rw [if_pos hd]
        · exfalso
          apply hne
          rw [if_neg hd, (VoteIfNeeded_frame w pindex s).1]
          exact hp
      · rcases h with h | h | h | h <;> simp at h

/-- C23 witness: a validator that is not enabled receives a block that would have
finalized its deposit; its state is as before. -/
theorem C23_phase_edges_witness :
    (BlockConnected false false walletOk blockEight stateW).state = stateW ∧
    (BlockConnected false false walletOk blockEight stateW).vote = none :=
  (C23_phase_edges false false walletOk blockEight stateW).2 (Or.inl rfl)

end esperanza

namespace esperanza

/-! ## The selected set as a prefix of the candidates -/

theorem selectLoop_covering (nValue : ValueTable) (EEES nTargetValue : CAmount)
    (hE : 0 ≤ EEES) (hT : fits64 (nTargetValue + EEES)) (cands : List COutput) :
    ∀ (s : List CoinRef) (v : CAmount),
    0 ≤ v → (∀ o ∈ cands, 0 ≤ nValue o.tx o.i) →
    v + (cands.map (fun o => nValue o.tx o.i)).sum ≤ 9223372036854775807 →
    ∃ n, n ≤ cands.length ∧
      (∀ c, c ∈ (selectLoop nValue EEES nTargetValue cands s v).1 ↔
        c ∈ s ∨ c ∈ (cands.take n).map COutput.coin) ∧
      (selectLoop nValue EEES nTargetValue cands s v).2 =
        v + ((cands.take n).map (fun o => nValue o.tx o.i)).sum ∧
      (∀ m, m < n → v + ((cands.take m).map (fun o => nValue o.tx o.i)).sum < nTargetValue) ∧
      (nTargetValue ≤ v + ((cands.take n).map (fun o => nValue o.tx o.i)).sum ∨
        n = cands.length) := by
  have hw : wrap64 (nTargetValue + EEES) = nTargetValue + EEES := wrap64_of_fits _ hT
  induction cands with
  | nil =>
    intro s v _ _ _
    exact ⟨0, le_rfl, by simp [selectLoop], by simp [selectLoop],
      fun m hm => absurd hm (Nat.not_lt_zero m), Or.inr rfl⟩
  | cons o rest ih =>
    intro s v hv hpos hfit
    have hov : 0 ≤ nValue o.tx o.i := hpos o (by simp)
    have hrest : ∀ x ∈ rest, 0 ≤ nValue x.tx x.i := fun x hx => hpos x (by simp [hx])
    have hsum := sum_amounts_nonneg nValue rest hrest
    simp only [List.map_cons, List.sum_cons] at hfit
    have hva : wrap64 (v + nValue o.tx o.i) = v + nValue o.tx o.i :=
      wrap64_of_bounds _ (by linarith) (by linarith)
    unfold selectLoop
    simp only [hw, hva]
    by_cases h1 : v ≥ nTargetValue
    · rw [if_pos h1]
      refine ⟨0, Nat.zero_le _, by simp, by simp, fun m hm => absurd hm (Nat.not_lt_zero m),
        Or.inl ?_⟩
      simpa using h1
    · rw [if_neg h1]
      have hvlt : v < nTargetValue := not_le.1 h1
      by_cases h2 : nValue o.tx o.i ≥ nTargetValue
      · simp only [h2, if_true]
        refine ⟨1, by simp, ?_, by simp, ?_, Or.inl ?_⟩
        · intro c
          rw [mem_setInsert]
          simp only [List.take_succ_cons, List.take_zero, List.map_cons, List.map_nil,
            List.mem_singleton]
          tauto
        · intro m hm
          have hm0 : m = 0 := by omega
          subst hm0
          simpa using hvlt
        · simp only [List.take_succ_cons, List.take_zero, List.map_cons, List.map_nil,
            List.sum_cons, List.sum_nil, add_zero]
          linarith
      · have h3 : nValue o.tx o.i < nTargetValue + EEES := by linarith [not_le.1 h2]
        simp only [h2, h3, if_true, if_false]
        obtain ⟨n, hn, hmem, hval, hmin, hlast⟩ :=
          ih (setInsert o.coin s) (v + nValue o.tx o.i) (by linarith) hrest (by linarith)
        refine ⟨n + 1, by simp [hn], ?_, ?_, ?_, ?_⟩
        · intro c
          rw [hmem c, mem_setInsert]
          simp only [List.take_succ_cons, List.map_cons, List.mem_cons]
          tauto
        · rw [hval]
          simp only [List.take_succ_cons, List.map_cons, List.sum_cons]
          ring
        · intro m hm
          cases m with
          | zero => simpa using hvlt
          | succ k =>
            have := hmin k (by omega)
            simp only [List.take_succ_cons, List.map_cons, List.sum_cons]
            linarith
        · rcases hlast with h | h
          · left
            simp only [List.take_succ_cons, List.map_cons, List.sum_cons]
            linarith
          · right
            simp [h]

theorem nodup_of_sorted (s : List CoinRef)
    (h : List.Pairwise (fun a b => pairLess a b = true) s) : s.Nodup := by
  refine List.Pairwise.imp ?_ h
  intro a b hab e
  rw [e, pairLess_irrefl] at hab
  exact absurd hab (by decide)

/-! ## Coin selection as a prefix: the claim -/

/-- C24: for pairwise distinct candidates with non-negative amounts, a non-negative
`EEES` and any target, in the absence of 64 bit overflow (the amounts of all candidates
sum to at most `2 ^ 63 - 1` and `nTargetValue + EEES` is a 64 bit value), the set
`SelectCoinsForStaking` returns consists of exactly the
coins of a prefix of the candidate sequence, none of them skipped, and the accumulated
value is the sum of that prefix; the prefix is the shortest one whose amounts sum to at
least the target (every shorter prefix sums to less), or the whole sequence when no
prefix reaches the target. For a target at or below zero the result is the empty set
with accumulated value 0 and success. -/
theorem C24_selection_is_initial_segment (nValue : ValueTable) (EEES nTargetValue : CAmount)
    (cands : List COutput) (hE : 0 ≤ EEES) (hpos : ∀ o ∈ cands, 0 ≤ nValue o.tx o.i)
    (hnd : (cands.map COutput.coin).Nodup)
    (hsum : (cands.map (fun o => nValue o.tx o.i)).sum ≤ 9223372036854775807)
    (hT : fits64 (nTargetValue + EEES)) :
    (∃ n, n ≤ cands.length ∧
      List.Perm (SelectCoinsForStaking nValue EEES nTargetValue cands).setCoinsRet
        ((cands.take n).map COutput.coin) ∧
      (∀ o ∈ cands.take n,
        o.coin ∈ (SelectCoinsForStaking nValue EEES nTargetValue cands).setCoinsRet) ∧
      (SelectCoinsForStaking nValue EEES nTargetValue cands).nValueRet =
        ((cands.take n).map (fun o => nValue o.tx o.i)).sum ∧
      (∀ m, m < n → ((cands.take m).map (fun o => nValue o.tx o.i)).sum < nTargetValue) ∧
      (nTargetValue ≤ ((cands.take n).map (fun o => nValue o.tx o.i)).sum ∨
        n = cands.length)) ∧
    (nTargetValue ≤ 0 →
      SelectCoinsForStaking nValue EEES nTargetValue cands =
        { ok := true, setCoinsRet := [], nValueRet := 0 }) := by
  constructor
  · obtain ⟨n, hn, hmem, hval, hmin, hlast⟩ :=
      selectLoop_covering nValue EEES nTargetValue hE hT cands [] 0 le_rfl hpos (by linarith)
    have hsorted := selectLoop_sorted nValue EEES nTargetValue cands [] 0 List.Pairwise.nil
    have hnd1 := nodup_of_sorted _ hsorted
    have hnd2 : ((cands.take n).map COutput.coin).Nodup := by
      rw [List.map_take]
      exact hnd.sublist (List.take_sublist _ _)
    refine ⟨n, hn, ?_, ?_, ?_, ?_, ?_⟩
    · refine (List.perm_ext_iff_of_nodup hnd1 hnd2).2 ?_
      intro c
      simpa [SelectCoinsForStaking] using hmem c
    · intro o ho
      have := (hmem o.coin).2 (Or.inr (List.mem_map_of_mem COutput.coin ho))
      simpa [SelectCoinsForStaking] using this
    · simpa [SelectCoinsForStaking] using hval
    · intro m hm
      simpa using hmin m hm
    · simpa using hlast
  · intro ht
    cases cands with
    | nil => simp [SelectCoinsForStaking, selectLoop, ht]
    | cons o rest => simp [SelectCoinsForStaking, selectLoop, ht]

/-- C24 witness: three distinct coins worth 10 each against a target of 15: the first
two are taken, with accumulated value 20. -/
theorem C24_selection_is_initial_segment_witness :
    ∃ n, n ≤ [(⟨2, 1⟩ : COutput), ⟨1, 0⟩, ⟨2, 0⟩].length ∧
      List.Perm (SelectCoinsForStaking tableTen 1000000 15 [⟨2, 1⟩, ⟨1, 0⟩, ⟨2, 0⟩]).setCoinsRet
        (([(⟨2, 1⟩ : COutput), ⟨1, 0⟩, ⟨2, 0⟩].take n).map COutput.coin) ∧
      (∀ o ∈ [(⟨2, 1⟩ : COutput), ⟨1, 0⟩, ⟨2, 0⟩].take n,
        o.coin ∈ (SelectCoinsForStaking tableTen 1000000 15
          [⟨2, 1⟩, ⟨1, 0⟩, ⟨2, 0⟩]).setCoinsRet) ∧
      (SelectCoinsForStaking tableTen 1000000 15 [⟨2, 1⟩, ⟨1, 0⟩, ⟨2, 0⟩]).nValueRet =
        (([(⟨2, 1⟩ : COutput), ⟨1, 0⟩, ⟨2, 0⟩].take n).map
          (fun o => tableTen o.tx o.i)).sum ∧
      (∀ m, m < n →
        (([(⟨2, 1⟩ : COutput), ⟨1, 0⟩, ⟨2, 0⟩].take m).map
          (fun o => tableTen o.tx o.i)).sum < 15) ∧
      ((15 : CAmount) ≤ (([(⟨2, 1⟩ : COutput), ⟨1, 0⟩, ⟨2, 0⟩].take n).map
          (fun o => tableTen o.tx o.i)).sum ∨
        n = [(⟨2, 1⟩ : COutput), ⟨1, 0⟩, ⟨2, 0⟩].length) :=
  (C24_selection_is_initial_segment tableTen 1000000 15 [⟨2, 1⟩, ⟨1, 0⟩, ⟨2, 0⟩]
    (by decide) (by intro o _; simp [tableTen]) (by decide) (by decide) (by decide)).1

end esperanza

namespace esperanza

/-! ## The credit of a coinstake -/

end esperanza

namespace staking

/-! ## The comparator as an order -/

theorem lex_trichotomy (a1 b1 : Int) (a2 b2 a3 b3 a4 b4 : Nat) :
    let ab := a1 > b1 ∨ (a1 = b1 ∧ (a2 < b2 ∨ (a2 = b2 ∧ (a3 < b3 ∨ (a3 = b3 ∧ a4 < b4)))))
    let ba := b1 > a1 ∨ (b1 = a1 ∧ (b2 < a2 ∨ (b2 = a2 ∧ (b3 < a3 ∨ (b3 = a3 ∧ b4 < a4)))))
    let same := a1 = b1 ∧ a2 = b2 ∧ a3 = b3 ∧ a4 = b4
    (ab ∧ ¬ ba ∧ ¬ same) ∨ (¬ ab ∧ ba ∧ ¬ same) ∨ (¬ ab ∧ ¬ ba ∧ same) := by
  intro ab ba same
  simp only [ab, ba, same]
  omega

theorem lex_trans (a1 b1 c1 : Int) (a2 b2 c2 a3 b3 c3 a4 b4 c4 : Nat)
    (hab : a1 > b1 ∨ (a1 = b1 ∧ (a2 < b2 ∨ (a2 = b2 ∧ (a3 < b3 ∨ (a3 = b3 ∧ a4 < b4))))))
    (hbc : b1 > c1 ∨ (b1 = c1 ∧ (b2 < c2 ∨ (b2 = c2 ∧ (b3 < c3 ∨ (b3 = c3 ∧ b4 < c4)))))) :
    a1 > c1 ∨ (a1 = c1 ∧ (a2 < c2 ∨ (a2 = c2 ∧ (a3 < c3 ∨ (a3 = c3 ∧ a4 < c4))))) := by
  omega

theorem comparator_iff (left right : Coin) :
    CoinByAmountComparator left right = true ↔ precedes left right := by
  unfold CoinByAmountComparator precedes
  by_cases h1 : left.GetAmount > right.GetAmount
  · simp [h1]
  · by_cases h2 : left.GetAmount < right.GetAmount
    · have h3 : left.GetAmount ≠ right.GetAmount := ne_of_lt h2
      simp [h1, h2, h3]
    · have h3 : left.GetAmount = right.GetAmount := le_antisymm (not_lt.1 h1) (not_lt.1 h2)
      simp only [h1, h2, h3, if_false, false_or, true_and]
      by_cases h4 : left.GetHeight < right.GetHeight
      · simp [h4]
      · by_cases h5 : left.GetHeight > right.GetHeight
        · have h6 : left.GetHeight ≠ right.GetHeight := (ne_of_lt h5).symm
          simp [h4, h5, h6]
        · have h6 : left.GetHeight = right.GetHeight := by omega
          simp only [h4, h5, h6, if_false, false_or, true_and]
          by_cases h7 : left.GetTransactionId < right.GetTransactionId
          · simp [h7]
          · by_cases h8 : left.GetTransactionId = right.GetTransactionId
            · simp [h8]
            · simp [h7, h8]

theorem comparator_trichotomy (a b : Coin) :
    (CoinByAmountComparator a b = true ∧ CoinByAmountComparator b a = false ∧ a ≠ b) ∨
    (CoinByAmountComparator a b = false ∧ CoinByAmountComparator b a = true ∧ a ≠ b) ∨
    (CoinByAmountComparator a b = false ∧ CoinByAmountComparator b a = false ∧ a = b) := by
  have hab := comparator_iff a b
  have hba := comparator_iff b a
  have ht := lex_trichotomy a.GetAmount b.GetAmount a.GetHeight b.GetHeight
    a.GetTransactionId b.GetTransactionId a.GetOutputIndex b.GetOutputIndex
  have hsame : a = b ↔ (a.GetAmount = b.GetAmount ∧ a.GetHeight = b.GetHeight ∧
      a.GetTransactionId = b.GetTransactionId ∧ a.GetOutputIndex = b.GetOutputIndex) := by
    constructor
    · intro e; rw [e]; exact ⟨rfl, rfl, rfl, rfl⟩
    · intro e
      cases a
      cases b
      simp only at e
      simp [e.1, e.2.1, e.2.2.1, e.2.2.2]
  simp only at ht
  unfold precedes at hab hba
  rcases ht with ⟨h1, h2, h3⟩ | ⟨h1, h2, h3⟩ | ⟨h1, h2, h3⟩
  · left
    refine ⟨hab.2 h1, ?_, fun e => h3 (hsame.1 e)⟩
    cases hc : CoinByAmountComparator b a with
    | false => rfl
    | true => exact absurd (hba.1 hc) h2
  · right; left
    refine ⟨?_, hba.2 h2, fun e => h3 (hsame.1 e)⟩
    cases hc : CoinByAmountComparator a b with
    | false => rfl
    | true => exact absurd (hab.1 hc) h1
  · right; right
    refine ⟨?_, ?_, hsame.2 h3⟩
    · cases hc : CoinByAmountComparator a b with
      | false => rfl
      | true => exact absurd (hab.1 hc) h1
    · cases hc : CoinByAmountComparator b a with
      | false => rfl
      | true => exact absurd (hba.1 hc) h2

theorem mem_CoinSet_insert (c x : Coin) (s : List Coin) :
    x ∈ CoinSet.insert c s ↔ x = c ∨ x ∈ s := by
  induction s with
  | nil => simp [CoinSet.insert]
  | cons d ds ih =>
    unfold CoinSet.insert
    by_cases h1 : CoinByAmountComparator c d = true
    · rw [if_pos h1]
      simp
    · rw [if_neg h1]
      by_cases h2 : CoinByAmountComparator d c = true
      · rw [if_pos h2]
        simp only [List.mem_cons, ih]
        tauto
      · rw [if_neg h2]
        have hcd : c = d := by
          rcases comparator_trichotomy c d with h | h | h
          · exact absurd h.1 h1
          · exact absurd h.2.1 h2
          · exact h.2.2
        subst hcd
        simp only [List.mem_cons]
        tauto

/-! ## The comparator as an order: the claim -/

/-- C27: `CoinByAmountComparator` is a strict total order on coins seen as (amount,
height, transaction id, output index): no coin comes before itself, the order is
transitive, and of any two coins exactly one holds: the first comes before the second,
the second before the first, or all four fields are equal. So two coins with the same
outpoint, equal under `operator==`, that differ in amount or height are not
equivalent for the set, and a `CoinSet` that receives both keeps both as distinct
elements. -/
theorem C27_comparator_strict_total_order (a b c : Coin) (s : List Coin) :
    CoinByAmountComparator a a = false ∧
    (CoinByAmountComparator a b = true → CoinByAmountComparator b c = true →
      CoinByAmountComparator a c = true) ∧
    ((CoinByAmountComparator a b = true ∧ CoinByAmountComparator b a = false ∧
        ¬ (a.GetAmount = b.GetAmount ∧ a.GetHeight = b.GetHeight ∧
          a.GetTransactionId = b.GetTransactionId ∧ a.GetOutputIndex = b.GetOutputIndex)) ∨
      (CoinByAmountComparator a b = false ∧ CoinByAmountComparator b a = true ∧
        ¬ (a.GetAmount = b.GetAmount ∧ a.GetHeight = b.GetHeight ∧
          a.GetTransactionId = b.GetTransactionId ∧ a.GetOutputIndex = b.GetOutputIndex)) ∨
      (CoinByAmountComparator a b = false ∧ CoinByAmountComparator b a = false ∧
        (a.GetAmount = b.GetAmount ∧ a.GetHeight = b.GetHeight ∧
          a.GetTransactionId = b.GetTransactionId ∧ a.GetOutputIndex = b.GetOutputIndex))) ∧
    (Coin.eq a b = true → (a.GetAmount ≠ b.GetAmount ∨ a.GetHeight ≠ b.GetHeight) →
      a ≠ b ∧
      (CoinByAmountComparator a b = true ∨ CoinByAmountComparator b a = true) ∧
      a ∈ CoinSet.insert b (CoinSet.insert a s) ∧
      b ∈ CoinSet.insert b (CoinSet.insert a s) ∧
      (CoinSet.insert b (CoinSet.insert a [])).length = 2) := by
  refine ⟨?_, ?_, ?_, ?_⟩
  · rcases comparator_trichotomy a a with h | h | h
    · exact absurd rfl h.2.2
    · exact absurd rfl h.2.2
    · exact h.1
  · intro hab hbc
    have h1 := (comparator_iff a b).1 hab
    have h2 := (comparator_iff b c).1 hbc
    apply (comparator_iff a c).2
    unfold precedes at h1 h2 ⊢
    exact lex_trans _ _ _ _ _ _ _ _ _ _ _ _ h1 h2
  · rcases comparator_trichotomy a b with h | h | h
    · refine Or.inl ⟨h.1, h.2.1, fun e => h.2.2 ?_⟩
      cases a
      cases b
      simp only at e
      simp [e.1, e.2.1, e.2.2.1, e.2.2.2]
    · refine Or.inr (Or.inl ⟨h.1, h.2.1, fun e => h.2.2 ?_⟩)
      cases a
      cases b
      simp only at e
      simp [e.1, e.2.1, e.2.2.1, e.2.2.2]
    · refine Or.inr (Or.inr ⟨h.1, h.2.1, ?_⟩)
      rw [h.2.2]
      exact ⟨rfl, rfl, rfl, rfl⟩
  · intro _ hdiff
    have hne : a ≠ b := by
      intro e
      rw [e] at hdiff
      rcases hdiff with h | h <;> exact h rfl
    have hcmp : CoinByAmountComparator a b = true ∨ CoinByAmountComparator b a = true := by
      rcases comparator_trichotomy a b with h | h | h
      · exact Or.inl h.1
      · exact Or.inr h.2.1
      · exact absurd h.2.2 hne
    refine ⟨hne, hcmp, ?_, ?_, ?_⟩
    · exact (mem_CoinSet_insert b a _).2 (Or.inr ((mem_CoinSet_insert a a s).2 (Or.inl rfl)))
    · exact (mem_CoinSet_insert b b _).2 (Or.inl rfl)
    · rcases comparator_trichotomy b a with h | h | h
      · simp [CoinSet.insert, h.1]
      · simp [CoinSet.insert, h.1, h.2.1]
      · exact absurd h.2.2.symm hne

/-- C27 witness: the two example coins share the outpoint (3, 0) and differ in amount
and height; the set built from them holds both, the bigger one first. -/
theorem C27_comparator_strict_total_order_witness :
    coinFifty ≠ coinEighty ∧
    (CoinByAmountComparator coinFifty coinEighty = true ∨
      CoinByAmountComparator coinEighty coinFifty = true) ∧
    coinFifty ∈ CoinSet.insert coinEighty (CoinSet.insert coinFifty []) ∧
    coinEighty ∈ CoinSet.insert coinEighty (CoinSet.insert coinFifty []) ∧
    (CoinSet.insert coinEighty (CoinSet.insert coinFifty [])).length = 2 :=
  (C27_comparator_strict_total_order coinFifty coinEighty coinFifty []).2.2.2
    (by decide) (Or.inl (by decide))

end staking
